import Mathlib

/-!
Shallow embedding of the pinecone routing core: the spanning-tree state
machine of src/router/state_tree.go and the virtual-snake state machine of
src/router/state_snek.go.

Pure data is embedded directly.  Effects (frame pushes, timer re-arms, log
lines, the asynchronous re-broadcast of tree announcements) are recorded in
an output list.  The wall clock is passed to each handler as an explicit
natural-number timestamp, and time.Since is truncated subtraction.  Public
keys are 32-byte strings compared under unsigned lexicographic order, which
is a linear order; the routing code uses keys only through equality and
order comparisons, so keys are embedded as naturals.  Go maps (the per-peer
announcement map and the snake table) are embedded as association lists
whose update operation removes every older binding of the key, preserving
the map semantics that a key is bound at most once.
-/

namespace Pinecone

/-! Wire types from the types package (the package itself is not under
src/); the operations on them are modelled from the spec where noted. -/

abbrev types.PublicKey : Type := Nat

abbrev types.Varu64 : Type := Nat

abbrev types.VirtualSnakePathID : Type := Nat

abbrev types.SwitchPorts : Type := List Nat

structure types.SignatureWithHop where
  PublicKey : types.PublicKey
  Hop : types.Varu64
deriving DecidableEq

structure types.SwitchAnnouncement where
  RootPublicKey : types.PublicKey
  Sequence : types.Varu64
  Signatures : List types.SignatureWithHop
deriving DecidableEq

/-- Modelled from the spec (types package missing from src/): Coords() is
the hop list of the signatures excluding the last. -/
def types.SwitchAnnouncement.Coords (a : types.SwitchAnnouncement) : types.SwitchPorts :=
  (a.Signatures.map (fun s => s.Hop)).dropLast

/-- Modelled from the spec (types package missing from src/): PeerCoords()
is the hop list of the signatures including the last. -/
def types.SwitchAnnouncement.PeerCoords (a : types.SwitchAnnouncement) : types.SwitchPorts :=
  a.Signatures.map (fun s => s.Hop)

/-- Modelled from the spec (types package missing from src/):
IsLoopOrChildOf(k) holds when k appears in any signature. -/
def types.SwitchAnnouncement.IsLoopOrChildOf (a : types.SwitchAnnouncement)
    (k : types.PublicKey) : Bool :=
  a.Signatures.any (fun s => s.PublicKey == k)

/-- Modelled from the spec (types package missing from src/): CompareTo
returns the sign of the difference under unsigned lexicographic order. -/
def compareTo (a b : types.PublicKey) : Int :=
  if a < b then -1 else if b < a then 1 else 0

/-- Modelled from the spec (util package missing from src/): util.LessThan
is strict unsigned lexicographic order. -/
def util.LessThan (a b : types.PublicKey) : Bool :=
  decide (a < b)

/-- Modelled from the spec (util package missing from src/):
DHTOrdered(a, b, c) is the strict unsigned lexicographic inequality
a < b < c, with no wraparound. -/
def util.DHTOrdered (a b c : types.PublicKey) : Bool :=
  decide (a < b) && decide (b < c)

/-- Modelled from the spec (types package missing from src/): the tree
distance is len(a) + len(b) - 2 * |lcp(a, b)|.  lcpLen is the length of the
longest common prefix. -/
def lcpLen : types.SwitchPorts → types.SwitchPorts → Nat
  | a :: as1, b :: bs1 => if a = b then 1 + lcpLen as1 bs1 else 0
  | _, _ => 0

/-- Modelled from the spec (types package missing from src/): DistanceTo. -/
def distanceTo (a b : types.SwitchPorts) : Nat :=
  a.length + b.length - 2 * lcpLen a b

structure types.VirtualSnakeBootstrap where
  PathID : types.VirtualSnakePathID
  RootPublicKey : types.PublicKey
  RootSequence : types.Varu64
deriving DecidableEq

structure types.VirtualSnakeBootstrapACK where
  PathID : types.VirtualSnakePathID
  RootPublicKey : types.PublicKey
  RootSequence : types.Varu64
deriving DecidableEq

structure types.VirtualSnakeSetup where
  PathID : types.VirtualSnakePathID
  RootPublicKey : types.PublicKey
  RootSequence : types.Varu64
deriving DecidableEq

structure types.VirtualSnakeTeardown where
  PathID : types.VirtualSnakePathID
deriving DecidableEq

inductive types.FrameType
  | TypeSTP
  | TypeVirtualSnakeBootstrap
  | TypeVirtualSnakeBootstrapACK
  | TypeVirtualSnakeSetup
  | TypeVirtualSnakeTeardown
  | TypeOther
deriving DecidableEq

/-- A frame payload carries the structured data of a wire frame; a payload
of the wrong shape fails to unmarshal, mirroring a decode error. -/
inductive types.Payload
  | announcement (a : types.SwitchAnnouncement)
  | bootstrap (b : types.VirtualSnakeBootstrap)
  | bootstrapACK (b : types.VirtualSnakeBootstrapACK)
  | setup (x : types.VirtualSnakeSetup)
  | teardown (t : types.VirtualSnakeTeardown)
  | raw
deriving DecidableEq

structure types.Frame where
  ftype : types.FrameType
  Source : types.SwitchPorts
  Destination : types.SwitchPorts
  SourceKey : types.PublicKey
  DestinationKey : types.PublicKey
  payload : types.Payload
deriving DecidableEq

/-! Router-level data: peers, announcement records, snake records,
the router state, and the effect log. -/

/-- A peer; pid models pointer identity, the other fields are the ones the
routing core reads (public key, port, started flag). -/
structure Peer where
  pid : Nat
  public : types.PublicKey
  port : Nat
  started : Bool
deriving DecidableEq

structure rootAnnouncementWithTime where
  announcement : types.SwitchAnnouncement
  receiveTime : Nat
  receiveOrder : Nat
deriving DecidableEq

structure virtualSnakeIndex where
  PublicKey : types.PublicKey
  PathID : types.VirtualSnakePathID
deriving DecidableEq

structure virtualSnakeEntry where
  PublicKey : types.PublicKey
  PathID : types.VirtualSnakePathID
  Source : Peer
  Destination : Peer
  LastSeen : Nat
  RootPublicKey : types.PublicKey
  RootSequence : types.Varu64
deriving DecidableEq

/-- Effects a handler performs besides mutating the router state. -/
inductive Output
  | push (p : Peer) (f : types.Frame)
  | sendTreeAnnouncements
  | maintainTreeIn (d : Nat)
  | maintainSnakeIn (d : Nat)
  | logCoords (c : types.SwitchPorts)
  | rootChanged (k : types.PublicKey)
deriving DecidableEq

/-- The router state: the fields of the state actor (and of the router it
references) that the two embedded files read and write. -/
structure State where
  public : types.PublicKey
  localPeer : Peer
  parent : Option Peer
  announcements : List (Peer × rootAnnouncementWithTime)
  peers : List (Option Peer)
  sequence : types.Varu64
  ordering : Nat
  ascending : Option virtualSnakeEntry
  descending : Option virtualSnakeEntry
  table : List (virtualSnakeIndex × virtualSnakeEntry)
deriving DecidableEq

structure HandlerResult where
  state : State
  out : List Output
  err : Option String
deriving DecidableEq

/-! Map operations: association lists with map semantics (an update removes
any previous binding of the key, as a Go map assignment does). -/

def annLookup (m : List (Peer × rootAnnouncementWithTime)) (p : Peer) :
    Option rootAnnouncementWithTime :=
  (m.find? (fun x => x.1 == p)).map (fun x => x.2)

def annInsert (m : List (Peer × rootAnnouncementWithTime)) (p : Peer)
    (a : rootAnnouncementWithTime) : List (Peer × rootAnnouncementWithTime) :=
  (p, a) :: m.filter (fun x => x.1 != p)

def tableLookup (t : List (virtualSnakeIndex × virtualSnakeEntry))
    (i : virtualSnakeIndex) : Option virtualSnakeEntry :=
  (t.find? (fun x => x.1 == i)).map (fun x => x.2)

def tableErase (t : List (virtualSnakeIndex × virtualSnakeEntry))
    (i : virtualSnakeIndex) : List (virtualSnakeIndex × virtualSnakeEntry) :=
  t.filter (fun x => x.1 != i)

def tableInsert (t : List (virtualSnakeIndex × virtualSnakeEntry))
    (i : virtualSnakeIndex) (e : virtualSnakeEntry) :
    List (virtualSnakeIndex × virtualSnakeEntry) :=
  (i, e) :: tableErase t i

/-! Constants (state_tree.go, state_snek.go), in seconds. -/

def announcementInterval : Nat := 5

def announcementTimeout : Nat := announcementInterval * 2

def virtualSnakeNeighExpiryPeriod : Nat := 3600

/-! Tree state machine (state_tree.go). -/

/-- state._rootAnnouncement: the stored announcement of the current parent,
or a fresh local-root announcement when there is no parent or no record for
it.  The zero receiveTime of that synthesized record mirrors Go's zero
time.Time, which lies arbitrarily far in the past: in any execution,
time.Since of it exceeds announcementTimeout, so behavior at states whose
root announcement is synthesized is only meaningful for timestamps with
announcementTimeout ≤ now. -/
def rootAnnouncement (s : State) : rootAnnouncementWithTime :=
  match s.parent with
  | none =>
    { announcement := { RootPublicKey := s.public, Sequence := s.sequence, Signatures := [] },
      receiveTime := 0, receiveOrder := 0 }
  | some p =>
    match annLookup s.announcements p with
    | none =>
      { announcement := { RootPublicKey := s.public, Sequence := s.sequence, Signatures := [] },
        receiveTime := 0, receiveOrder := 0 }
    | some a => a

/-- state._coords. -/
def coords (s : State) : types.SwitchPorts :=
  (rootAnnouncement s).announcement.Coords

/-- state._becomeRoot: clear the parent, log the new (empty) coordinates and
schedule immediate tree maintenance; a no-op when already root. -/
def becomeRoot (s : State) : State × List Output :=
  if s.parent = none then (s, [])
  else ({ s with parent := none }, [Output.logCoords [], Output.maintainTreeIn 0])

/-- The running best of state._selectNewParent; bestOrder none models the
initial math.MaxUint64 sentinel (receive orders always compare below it). -/
structure Best where
  bestKey : types.PublicKey
  bestSeq : types.Varu64
  bestOrder : Option Nat
  bestPeer : Option Peer
deriving DecidableEq

def ordLT (o : Nat) : Option Nat → Bool
  | none => true
  | some x => decide (o < x)

def initialBest (pub : types.PublicKey) : Best :=
  { bestKey := pub, bestSeq := 0, bestOrder := none, bestPeer := none }

/-- One iteration of the candidate loop of state._selectNewParent (the map
holds no nil values, so Go's nil check is vacuous here). -/
def selectStep (pub : types.PublicKey) (now : Nat) (b : Best)
    (pa : Peer × rootAnnouncementWithTime) : Best :=
  let ann := pa.2
  if announcementTimeout ≤ now - ann.receiveTime then b
  else if ann.announcement.IsLoopOrChildOf pub then b
  else if b.bestKey < ann.announcement.RootPublicKey then
    { bestKey := ann.announcement.RootPublicKey, bestSeq := ann.announcement.Sequence,
      bestOrder := some ann.receiveOrder, bestPeer := some pa.1 }
  else if ann.announcement.RootPublicKey < b.bestKey then b
  else if b.bestSeq < ann.announcement.Sequence then
    { bestKey := ann.announcement.RootPublicKey, bestSeq := ann.announcement.Sequence,
      bestOrder := some ann.receiveOrder, bestPeer := some pa.1 }
  else if ann.announcement.Sequence < b.bestSeq then b
  else if ordLT ann.receiveOrder b.bestOrder then
    { bestKey := ann.announcement.RootPublicKey, bestSeq := ann.announcement.Sequence,
      bestOrder := some ann.receiveOrder, bestPeer := some pa.1 }
  else b

/-- state._selectNewParent. -/
def selectNewParent (s : State) (now : Nat) : State × List Output :=
  let b := s.announcements.foldl (selectStep s.public now) (initialBest s.public)
  match b.bestPeer with
  | some bp =>
    if some bp ≠ s.parent then ({ s with parent := some bp }, [Output.sendTreeAnnouncements])
    else (s, [])
  | none => becomeRoot s

/-- The signature-chain validation loop of state._handleTreeAnnouncement:
index counter, set of already-seen signer keys, remaining signatures. -/
def checkSigs (root peerKey : types.PublicKey) :
    Nat → List types.PublicKey → List types.SignatureWithHop → Option String
  | _, _, [] => none
  | i, seen, sig :: rest =>
    if i = 0 ∧ sig.PublicKey ≠ root then some "update first signature does not match root key"
    else if sig.Hop = 0 then some "update contains invalid 0 hop"
    else if rest = [] ∧ peerKey ≠ sig.PublicKey then some "update last signature is not from direct peer"
    else if sig.PublicKey ∈ seen then some "update contains routing loop"
    else checkSigs root peerKey (i + 1) (sig.PublicKey :: seen) rest

/-- Which arm of the switch in state._handleTreeAnnouncement fires; the
loop-or-child, weaker-key and repeated-sequence cases all fall through into
the same call of _selectNewParent and share the reselect action, as does the
stale-parent case. -/
inductive TreeAction
  | reselect
  | adopt
  | rebroadcast
  | nothing
deriving DecidableEq

def treeAnnouncementAction (now lastRootTime : Nat) (updateFromParent : Bool)
    (rootKeyDelta : Int) (loopOrChild : Bool) (newSeq lastSeq : types.Varu64) : TreeAction :=
  if announcementTimeout ≤ now - lastRootTime then .reselect
  else if 0 < rootKeyDelta then .adopt
  else if updateFromParent ∧ rootKeyDelta = 0 ∧ lastSeq < newSeq then .rebroadcast
  else if updateFromParent ∧ loopOrChild then .reselect
  else if updateFromParent ∧ rootKeyDelta < 0 then .reselect
  else if updateFromParent ∧ rootKeyDelta = 0 ∧ lastSeq ≤ newSeq then .reselect
  else .nothing

/-- The body of the switch of state._handleTreeAnnouncement, applied to the
state with the new announcement already stored. -/
def treeAnnouncementApply (act : TreeAction) (s1 : State) (now : Nat) (p : Peer) :
    State × List Output :=
  match act with
  | .reselect => selectNewParent s1 now
  | .adopt => ({ s1 with parent := some p }, [Output.sendTreeAnnouncements])
  | .rebroadcast => (s1, [Output.sendTreeAnnouncements])
  | .nothing => (s1, [])

/-- state._handleTreeAnnouncement. -/
def handleTreeAnnouncement (s : State) (now : Nat) (p : Peer) (f : types.Frame) :
    HandlerResult :=
  match f.payload with
  | types.Payload.announcement newUpdate =>
    if newUpdate.Signatures = [] then
      { state := s, out := [], err := some "update has no signatures" }
    else
      match checkSigs newUpdate.RootPublicKey p.public 0 [] newUpdate.Signatures with
      | some e => { state := s, out := [], err := some e }
      | none =>
        let lastParentUpdate := rootAnnouncement s
        let lastCoords := lastParentUpdate.announcement.Coords
        let s1 : State :=
          { s with
            ordering := s.ordering + 1,
            announcements := annInsert s.announcements p
              { announcement := newUpdate, receiveTime := now, receiveOrder := s.ordering + 1 } }
        let lastRootKey := lastParentUpdate.announcement.RootPublicKey
        let lastRootTime := lastParentUpdate.receiveTime
        let rootKeyDelta := compareTo newUpdate.RootPublicKey lastRootKey
        let act := treeAnnouncementAction now lastRootTime (s.parent == some p) rootKeyDelta
          (newUpdate.IsLoopOrChildOf s.public) newUpdate.Sequence
          lastParentUpdate.announcement.Sequence
        let step := treeAnnouncementApply act s1 now p
        let latest : types.PublicKey × types.SwitchPorts :=
          match step.1.parent with
          | some q =>
            match annLookup step.1.announcements q with
            | some a => (a.announcement.RootPublicKey, a.announcement.Coords)
            | none => (s.public, [])
          | none => (s.public, [])
        let out2 :=
          (if lastCoords ≠ latest.2 then [Output.logCoords latest.2] else []) ++
          (if lastRootKey ≠ latest.1 then [Output.rootChanged latest.1] else [])
        { state := step.1, out := step.2 ++ out2, err := none }
  | _ => { state := s, out := [], err := some "update unmarshal failed" }

/-- The candidate scan of state._nextHopsTree; candidates are prepended, so
the head of the final accumulator is the most recently recorded one, as in
the downward-filled candidates array of the source. -/
def nextHopsTreeScan (s : State) (dest : types.SwitchPorts) (rootKey : types.PublicKey)
    (fromP : Peer) :
    List (Option Peer) → Nat → List Peer → List Peer
  | [], _, acc => acc
  | none :: rest, bestDist, acc => nextHopsTreeScan s dest rootKey fromP rest bestDist acc
  | some p :: rest, bestDist, acc =>
    if p = s.localPeer then nextHopsTreeScan s dest rootKey fromP rest bestDist acc
    else
      match annLookup s.announcements p with
      | none => nextHopsTreeScan s dest rootKey fromP rest bestDist acc
      | some ann =>
        if p = fromP ∨ ann.announcement.RootPublicKey ≠ rootKey then
          nextHopsTreeScan s dest rootKey fromP rest bestDist acc
        else
          let peerCoords := ann.announcement.PeerCoords
          let peerDist := distanceTo peerCoords dest
          if peerDist = 0 ∨ dest = peerCoords then [p]
          else if peerDist < bestDist then
            nextHopsTreeScan s dest rootKey fromP rest peerDist (p :: acc)
          else nextHopsTreeScan s dest rootKey fromP rest bestDist acc

/-- state._nextHopsTree. -/
def nextHopsTree (s : State) (fromP : Peer) (f : types.Frame) : List Peer :=
  let ourCoords := coords s
  if f.Destination = ourCoords then [s.localPeer]
  else
    let ourDist := distanceTo ourCoords f.Destination
    if ourDist = 0 then [s.localPeer]
    else
      nextHopsTreeScan s f.Destination (rootAnnouncement s).announcement.RootPublicKey
        fromP s.peers ourDist []

/-! Snake state machine (state_snek.go). -/

structure TeardownResult where
  state : State
  out : List Output
  nexthop : Option Peer
deriving DecidableEq

/-- The transit-table scan of state._teardownPath; a Go map holds a key at
most once, so removing the first match and computing the propagation peer
from it is the whole loop. -/
def teardownScan (s : State) (fromP : Option Peer) (pathKey : types.PublicKey)
    (pathID : types.VirtualSnakePathID) : TeardownResult :=
  match s.table.find? (fun kv => kv.1.PublicKey == pathKey && kv.1.PathID == pathID) with
  | none => { state := s, out := [], nexthop := none }
  | some kv =>
    let s1 := { s with table := tableErase s.table kv.1 }
    let ret : Option Peer :=
      match fromP with
      | some f =>
        if f = kv.2.Source ∧ kv.2.Destination ≠ s.localPeer then some kv.2.Destination
        else if f = kv.2.Destination ∧ kv.2.Source ≠ s.localPeer then some kv.2.Source
        else none
      | none =>
        if kv.2.Source ≠ s.localPeer then some kv.2.Source
        else if kv.2.Destination ≠ s.localPeer then some kv.2.Destination
        else none
    { state := s1, out := [], nexthop := ret }

def teardownDesc (s : State) (fromP : Option Peer) (pathKey : types.PublicKey)
    (pathID : types.VirtualSnakePathID) : TeardownResult :=
  match s.descending with
  | some desc =>
    if desc.PublicKey = pathKey ∧ desc.PathID = pathID then
      { state := { s with
          descending := none
          table := tableErase s.table { PublicKey := desc.PublicKey, PathID := desc.PathID } },
        out := [], nexthop := some desc.Source }
    else teardownScan s fromP pathKey pathID
  | none => teardownScan s fromP pathKey pathID

/-- state._teardownPath. -/
def teardownPath (s : State) (fromP : Option Peer) (pathKey : types.PublicKey)
    (pathID : types.VirtualSnakePathID) : TeardownResult :=
  match s.ascending with
  | some asc =>
    if asc.PathID = pathID ∧
        ((fromP ≠ none ∧ s.public = pathKey) ∨ (fromP = none ∧ asc.PublicKey = pathKey)) then
      { state := { s with
          ascending := none
          table := tableErase s.table { PublicKey := asc.PublicKey, PathID := asc.PathID } },
        out := [Output.maintainSnakeIn 0], nexthop := some asc.Source }
    else teardownDesc s fromP pathKey pathID
  | none => teardownDesc s fromP pathKey pathID

/-- state._getTeardown; unset frame fields carry their Go zero values. -/
def getTeardown (s : State) (pathKey : types.PublicKey)
    (pathID : types.VirtualSnakePathID) (ascending : Bool) : types.Frame :=
  if ascending then
    { ftype := types.FrameType.TypeVirtualSnakeTeardown, Source := [], Destination := [],
      SourceKey := 0, DestinationKey := s.public,
      payload := types.Payload.teardown { PathID := pathID } }
  else
    { ftype := types.FrameType.TypeVirtualSnakeTeardown, Source := [], Destination := [],
      SourceKey := 0, DestinationKey := pathKey,
      payload := types.Payload.teardown { PathID := pathID } }

/-- state._sendTeardownForPath. -/
def sendTeardownForPath (s : State) (pathKey : types.PublicKey)
    (pathID : types.VirtualSnakePathID) (via : Option Peer) (ascending : Bool) :
    State × List Output :=
  let td := teardownPath s none pathKey pathID
  let frame := getTeardown s pathKey pathID ascending
  match via with
  | some v => (td.state, td.out ++ [Output.push v frame])
  | none =>
    match td.nexthop with
    | some n => (td.state, td.out ++ [Output.push n frame])
    | none => (td.state, td.out)

/-- state._handleTeardown. -/
def handleTeardown (s : State) (fromP : Peer) (rx : types.Frame) :
    TeardownResult × Option String :=
  match rx.payload with
  | types.Payload.teardown t =>
    (teardownPath s (some fromP) rx.DestinationKey t.PathID, none)
  | _ => ({ state := s, out := [], nexthop := none }, some "teardown unmarshal failed")

/-- The acknowledge decision of state._handleBootstrap, with the switch
cases in source order. -/
def bootstrapAcknowledge (s : State) (now : Nat) (rx : types.Frame)
    (bootstrap : types.VirtualSnakeBootstrap) (root : rootAnnouncementWithTime) : Bool :=
  if rx.SourceKey = s.public then false
  else if bootstrap.RootPublicKey ≠ root.announcement.RootPublicKey ∨
      bootstrap.RootSequence ≠ root.announcement.Sequence then false
  else
    match s.descending with
    | some desc =>
      if desc.PublicKey = rx.DestinationKey then true
      else if virtualSnakeNeighExpiryPeriod ≤ now - desc.LastSeen then true
      else if util.DHTOrdered desc.PublicKey rx.DestinationKey s.public then true
      else false
    | none => util.LessThan rx.DestinationKey s.public

/-- state._handleBootstrap; pushes are modelled as accepted, so the ACK
goes to the first tree next hop. -/
def handleBootstrap (s : State) (now : Nat) (fromP : Peer) (rx : types.Frame) :
    HandlerResult :=
  if rx.DestinationKey = s.public then { state := s, out := [], err := none }
  else
    match rx.payload with
    | types.Payload.bootstrap bootstrap =>
      let root := rootAnnouncement s
      let bootstrapACK : types.VirtualSnakeBootstrapACK :=
        { PathID := bootstrap.PathID, RootPublicKey := root.announcement.RootPublicKey,
          RootSequence := root.announcement.Sequence }
      if bootstrapAcknowledge s now rx bootstrap root then
        let send : types.Frame :=
          { ftype := types.FrameType.TypeVirtualSnakeBootstrapACK,
            Destination := rx.Source, DestinationKey := rx.DestinationKey,
            Source := coords s, SourceKey := s.public,
            payload := types.Payload.bootstrapACK bootstrapACK }
        match (nextHopsTree s s.localPeer send).head? with
        | some p => { state := s, out := [Output.push p send], err := none }
        | none => { state := s, out := [], err := none }
      else { state := s, out := [], err := none }
    | _ => { state := s, out := [], err := some "bootstrap unmarshal failed" }

/-- The update decision of state._handleBootstrapACK, with the switch cases
in source order. -/
def bootstrapACKUpdate (s : State) (now : Nat) (rx : types.Frame)
    (ack : types.VirtualSnakeBootstrapACK) (root : rootAnnouncementWithTime) : Bool :=
  if rx.SourceKey = s.public then false
  else if ack.RootPublicKey ≠ root.announcement.RootPublicKey ∨
      ack.RootSequence ≠ root.announcement.Sequence then false
  else
    match s.ascending with
    | some asc =>
      if asc.PublicKey = rx.SourceKey ∧ asc.PathID ≠ ack.PathID then true
      else if virtualSnakeNeighExpiryPeriod ≤ now - asc.LastSeen then true
      else if util.DHTOrdered s.public rx.SourceKey asc.PublicKey then true
      else false
    | none => util.LessThan s.public rx.SourceKey

/-- The teardown of the previous ascending path in the update branch of
state._handleBootstrapACK. -/
def ackTeardownStep (s : State) : State × List Output :=
  match s.ascending with
  | some asc => sendTeardownForPath s asc.PublicKey asc.PathID none true
  | none => (s, [])

/-- state._handleBootstrapACK; the signed timestamp appended to the setup
payload is a cryptographic artifact the routing logic never reads and is
omitted. -/
def handleBootstrapACK (s : State) (now : Nat) (fromP : Peer) (rx : types.Frame) :
    HandlerResult :=
  match rx.payload with
  | types.Payload.bootstrapACK ack =>
    let root := rootAnnouncement s
    if bootstrapACKUpdate s now rx ack root then
      let step := ackTeardownStep s
      let entry : virtualSnakeEntry :=
        { PublicKey := rx.SourceKey, PathID := ack.PathID, Source := fromP,
          Destination := s.localPeer, LastSeen := now,
          RootPublicKey := ack.RootPublicKey, RootSequence := ack.RootSequence }
      let s2 := { step.1 with ascending := some entry }
      let setup : types.VirtualSnakeSetup :=
        { PathID := ack.PathID, RootPublicKey := root.announcement.RootPublicKey,
          RootSequence := root.announcement.Sequence }
      let send : types.Frame :=
        { ftype := types.FrameType.TypeVirtualSnakeSetup,
          Destination := rx.Source, DestinationKey := rx.SourceKey,
          Source := [], SourceKey := s.public,
          payload := types.Payload.setup setup }
      match (nextHopsTree s2 s2.localPeer send).head? with
      | some p => { state := s2, out := step.2 ++ [Output.push p send], err := none }
      | none => { state := s2, out := step.2, err := none }
    else { state := s, out := [], err := none }
  | _ => { state := s, out := [], err := some "bootstrapACK unmarshal failed" }

/-- The descending-update decision of state._handleSetup at the destination
node, with the switch cases in source order. -/
def setupDescUpdate (s : State) (now : Nat) (rx : types.Frame)
    (setup : types.VirtualSnakeSetup) (root : rootAnnouncementWithTime) : Bool :=
  if rx.SourceKey = s.public then false
  else if setup.RootPublicKey ≠ root.announcement.RootPublicKey ∨
      setup.RootSequence ≠ root.announcement.Sequence then false
  else
    match s.descending with
    | some desc =>
      if desc.PublicKey = rx.SourceKey then true
      else if virtualSnakeNeighExpiryPeriod ≤ now - desc.LastSeen then true
      else if util.DHTOrdered desc.PublicKey rx.SourceKey s.public then true
      else false
    | none => util.LessThan rx.SourceKey s.public

/-- The teardown of the previous descending path in the update branch of
state._handleSetup. -/
def setupTeardownStep (s : State) : State × List Output :=
  match s.descending with
  | some desc => sendTeardownForPath s desc.PublicKey desc.PathID none false
  | none => (s, [])

/-- state._handleSetup; nextHops is the tree next-hop list the dispatcher
precomputed for the frame.  The transit entry leaves PublicKey and PathID at
their Go zero values, as the source does. -/
def handleSetup (s : State) (now : Nat) (fromP : Peer) (rx : types.Frame)
    (nextHops : List Peer) : HandlerResult :=
  let root := rootAnnouncement s
  match rx.payload with
  | types.Payload.setup setup =>
    if (nextHops = [] ∨ nextHops.head? = some s.localPeer) ∧ rx.DestinationKey ≠ s.public then
      let step := sendTeardownForPath s rx.SourceKey setup.PathID (some fromP) false
      { state := step.1, out := step.2, err := none }
    else if (tableLookup s.table { PublicKey := rx.SourceKey, PathID := setup.PathID }).isSome then
      let step1 := sendTeardownForPath s rx.SourceKey setup.PathID none false
      let step2 := sendTeardownForPath step1.1 rx.SourceKey setup.PathID (some fromP) false
      { state := step2.1, out := step1.2 ++ step2.2, err := some "setup is a duplicate" }
    else if rx.DestinationKey = s.public then
      if setupDescUpdate s now rx setup root then
        let step := setupTeardownStep s
        let entry : virtualSnakeEntry :=
          { PublicKey := rx.SourceKey, PathID := setup.PathID, Source := fromP,
            Destination := s.localPeer, LastSeen := now,
            RootPublicKey := setup.RootPublicKey, RootSequence := setup.RootSequence }
        let idx : virtualSnakeIndex := { PublicKey := rx.SourceKey, PathID := setup.PathID }
        { state := { step.1 with
            table := tableInsert step.1.table idx entry
            descending := some entry },
          out := step.2, err := none }
      else
        let step := sendTeardownForPath s rx.SourceKey setup.PathID (some fromP) false
        { state := step.1, out := step.2, err := none }
    else
      let idx : virtualSnakeIndex := { PublicKey := rx.SourceKey, PathID := setup.PathID }
      let entry : virtualSnakeEntry :=
        { PublicKey := 0, PathID := 0, Source := fromP,
          Destination := match nextHops.head? with | some h => h | none => s.localPeer,
          LastSeen := now,
          RootPublicKey := setup.RootPublicKey, RootSequence := setup.RootSequence }
      { state := { s with table := tableInsert s.table idx entry }, out := [], err := none }
  | _ => { state := s, out := [], err := some "setup unmarshal failed" }

/-! Derived predicates used by the verification statements. -/

def Output.isPush : Output → Bool
  | .push _ _ => true
  | _ => false

/-- The tree distance from a peer's stored announcement to a destination (0
when the peer has no stored announcement); used to state the ordering of the
candidate list returned by the next-hop scan. -/
def peerDistOf (s : State) (dest : types.SwitchPorts) (q : Peer) : Nat :=
  match annLookup s.announcements q with
  | some a => distanceTo a.announcement.PeerCoords dest
  | none => 0

/-- Invariant 5 of the spec: the ascending key is above the local key and
the descending key below it. -/
def snekInvariant (s : State) : Bool :=
  s.ascending.all (fun e => s.public < e.PublicKey) &&
  s.descending.all (fun e => e.PublicKey < s.public)

/-- A stored announcement is a parent candidate when it is younger than
announcementTimeout and not a loop through or child of the local key. -/
def validCandidate (pub : types.PublicKey) (now : Nat)
    (pa : Peer × rootAnnouncementWithTime) : Prop :=
  now - pa.2.receiveTime < announcementTimeout ∧
  pa.2.announcement.IsLoopOrChildOf pub = false

/-- The strict candidate ranking of _selectNewParent: strictly greater root
key, then strictly greater sequence, then strictly smaller receive order. -/
def beats (pa : Peer × rootAnnouncementWithTime) (b : Best) : Prop :=
  b.bestKey < pa.2.announcement.RootPublicKey ∨
  (pa.2.announcement.RootPublicKey = b.bestKey ∧ b.bestSeq < pa.2.announcement.Sequence) ∨
  (pa.2.announcement.RootPublicKey = b.bestKey ∧ pa.2.announcement.Sequence = b.bestSeq ∧
    ordLT pa.2.receiveOrder b.bestOrder = true)

instance (pub : types.PublicKey) (now : Nat) (pa : Peer × rootAnnouncementWithTime) :
    Decidable (validCandidate pub now pa) := by
  unfold validCandidate
  exact inferInstance

instance (pa : Peer × rootAnnouncementWithTime) (b : Best) : Decidable (beats pa b) := by
  unfold beats
  exact inferInstance

def acceptBest (pa : Peer × rootAnnouncementWithTime) : Best :=
  { bestKey := pa.2.announcement.RootPublicKey, bestSeq := pa.2.announcement.Sequence,
    bestOrder := some pa.2.receiveOrder, bestPeer := some pa.1 }

/-! Concrete fixtures used to instantiate the theorems. -/

def pLocal : Peer := { pid := 0, public := 5, port := 0, started := true }

def pA : Peer := { pid := 1, public := 2, port := 1, started := true }

def pB : Peer := { pid := 2, public := 11, port := 2, started := true }

def baseState : State :=
  { public := 5, localPeer := pLocal, parent := none, announcements := [], peers := [],
    sequence := 0, ordering := 0, ascending := none, descending := none, table := [] }

def rxSelf : types.Frame :=
  { ftype := types.FrameType.TypeVirtualSnakeBootstrap, Source := [], Destination := [],
    SourceKey := 3, DestinationKey := 5, payload := types.Payload.raw }

def asc5w : virtualSnakeEntry :=
  { PublicKey := 9, PathID := 1, Source := pB, Destination := pLocal, LastSeen := 0,
    RootPublicKey := 5, RootSequence := 0 }

def s5w : State := { baseState with ascending := some asc5w, table := [(⟨9, 1⟩, asc5w)] }

def annPB7 : types.SwitchAnnouncement :=
  { RootPublicKey := 7, Sequence := 1,
    Signatures := [{ PublicKey := 7, Hop := 1 }, { PublicKey := 11, Hop := 2 }] }

def sC1 : State :=
  { public := 5, localPeer := pLocal, parent := some pB,
    announcements := [(pB, { announcement := annPB7, receiveTime := 10, receiveOrder := 1 })],
    peers := [], sequence := 0, ordering := 1, ascending := none, descending := none,
    table := [] }

def annC1 : types.SwitchAnnouncement :=
  { RootPublicKey := 9, Sequence := 1,
    Signatures := [{ PublicKey := 9, Hop := 1 }, { PublicKey := 5, Hop := 2 },
                   { PublicKey := 2, Hop := 3 }] }

def fC1 : types.Frame :=
  { ftype := types.FrameType.TypeSTP, Source := [], Destination := [],
    SourceKey := 0, DestinationKey := 0, payload := types.Payload.announcement annC1 }

def annPA : types.SwitchAnnouncement :=
  { RootPublicKey := 9, Sequence := 5,
    Signatures := [{ PublicKey := 9, Hop := 1 }, { PublicKey := 2, Hop := 2 }] }

def annPB : types.SwitchAnnouncement :=
  { RootPublicKey := 11, Sequence := 1,
    Signatures := [{ PublicKey := 11, Hop := 1 }, { PublicKey := 3, Hop := 2 }] }

def sC3 : State :=
  { public := 1, localPeer := pLocal, parent := some pA,
    announcements :=
      [(pA, { announcement := annPA, receiveTime := 0, receiveOrder := 1 }),
       (pB, { announcement := annPB, receiveTime := 0, receiveOrder := 2 })],
    peers := [], sequence := 0, ordering := 2, ascending := none, descending := none,
    table := [] }

def annC3 : types.SwitchAnnouncement :=
  { RootPublicKey := 9, Sequence := 3,
    Signatures := [{ PublicKey := 9, Hop := 1 }, { PublicKey := 2, Hop := 2 }] }

def fC3 : types.Frame :=
  { ftype := types.FrameType.TypeSTP, Source := [], Destination := [],
    SourceKey := 0, DestinationKey := 0, payload := types.Payload.announcement annC3 }

def annC3b : types.SwitchAnnouncement :=
  { RootPublicKey := 9, Sequence := 5,
    Signatures := [{ PublicKey := 9, Hop := 1 }, { PublicKey := 2, Hop := 2 }] }

def fC3b : types.Frame :=
  { ftype := types.FrameType.TypeSTP, Source := [], Destination := [],
    SourceKey := 0, DestinationKey := 0, payload := types.Payload.announcement annC3b }

def sC6 : State :=
  { public := 1, localPeer := pLocal, parent := some pA,
    announcements := [(pA, { announcement := annPA, receiveTime := 0, receiveOrder := 1 })],
    peers := [], sequence := 0, ordering := 1, ascending := none, descending := none,
    table := [] }

def fC6 : types.Frame :=
  { ftype := types.FrameType.TypeOther, Source := [], Destination := [],
    SourceKey := 0, DestinationKey := 0, payload := types.Payload.raw }

def ascC2 : virtualSnakeEntry :=
  { PublicKey := 9, PathID := 1, Source := pB, Destination := pLocal, LastSeen := 0,
    RootPublicKey := 5, RootSequence := 0 }

def sC2 : State := { baseState with ascending := some ascC2 }

def rxC2 : types.Frame :=
  { ftype := types.FrameType.TypeVirtualSnakeBootstrapACK, Source := [], Destination := [],
    SourceKey := 3, DestinationKey := 5,
    payload := types.Payload.bootstrapACK { PathID := 2, RootPublicKey := 5, RootSequence := 0 } }

def eC7 : virtualSnakeEntry :=
  { PublicKey := 2, PathID := 7, Source := pA, Destination := pLocal, LastSeen := 0,
    RootPublicKey := 5, RootSequence := 0 }

def sC7 : State := { baseState with table := [({ PublicKey := 2, PathID := 7 }, eC7)] }

def fC9 : types.Frame :=
  { ftype := types.FrameType.TypeSTP, Source := [], Destination := [],
    SourceKey := 0, DestinationKey := 0,
    payload := types.Payload.announcement
      { RootPublicKey := 9, Sequence := 1,
        Signatures := [{ PublicKey := 9, Hop := 0 }, { PublicKey := 2, Hop := 3 }] } }

def rx8 : types.Frame :=
  { ftype := types.FrameType.TypeVirtualSnakeSetup, Source := [], Destination := [],
    SourceKey := 2, DestinationKey := 9,
    payload := types.Payload.setup { PathID := 7, RootPublicKey := 5, RootSequence := 0 } }

/-! Supporting lemmas. -/

theorem tableErase_sublist (t : List (virtualSnakeIndex × virtualSnakeEntry))
    (i : virtualSnakeIndex) : (tableErase t i).Sublist t :=
  List.filter_sublist t

theorem teardownScan_table_sublist (s : State) (fromP : Option Peer)
    (pathKey : types.PublicKey) (pathID : types.VirtualSnakePathID) :
    (teardownScan s fromP pathKey pathID).state.table.Sublist s.table := by
  unfold teardownScan
  cases s.table.find? (fun kv => kv.1.PublicKey == pathKey && kv.1.PathID == pathID) with
  | none => exact List.Sublist.refl _
  | some kv => exact tableErase_sublist _ _

theorem teardownDesc_table_sublist (s : State) (fromP : Option Peer)
    (pathKey : types.PublicKey) (pathID : types.VirtualSnakePathID) :
    (teardownDesc s fromP pathKey pathID).state.table.Sublist s.table := by
  unfold teardownDesc
  cases s.descending with
  | none => exact teardownScan_table_sublist s fromP pathKey pathID
  | some desc =>
    dsimp only
    by_cases h : desc.PublicKey = pathKey ∧ desc.PathID = pathID
    · rw [if_pos h]; exact tableErase_sublist _ _
    · rw [if_neg h]; exact teardownScan_table_sublist s fromP pathKey pathID

theorem teardownPath_table_sublist (s : State) (fromP : Option Peer)
    (pathKey : types.PublicKey) (pathID : types.VirtualSnakePathID) :
    (teardownPath s fromP pathKey pathID).state.table.Sublist s.table := by
  unfold teardownPath
  cases s.ascending with
  | none => exact teardownDesc_table_sublist s fromP pathKey pathID
  | some asc =>
    dsimp only
    by_cases h : asc.PathID = pathID ∧
        ((fromP ≠ none ∧ s.public = pathKey) ∨ (fromP = none ∧ asc.PublicKey = pathKey))
    · rw [if_pos h]; exact tableErase_sublist _ _
    · rw [if_neg h]; exact teardownDesc_table_sublist s fromP pathKey pathID

/-! Claim C10. -/

/-- C10: a Bootstrap frame whose destination key equals the local public key
is dropped by _handleBootstrap immediately: no decoding, no state mutation,
no emitted frame, nil error. -/
theorem claim10_self_bootstrap_ignored (s : State) (now : Nat) (fromP : Peer)
    (rx : types.Frame) (h : rx.DestinationKey = s.public) :
    handleBootstrap s now fromP rx = { state := s, out := [], err := none } := by
  unfold handleBootstrap
  rw [if_pos h]

/-- Witness for C10 at a concrete state and frame. -/
theorem claim10_witness :
    handleBootstrap baseState 0 pA rxSelf = { state := baseState, out := [], err := none } :=
  claim10_self_bootstrap_ignored baseState 0 pA rxSelf rfl

/-! Claim C5. -/

/-- C5: _teardownPath handles, in order: a matching ascending record (clear
it, drop its index from the table, schedule immediate snake maintenance,
return its source peer); a matching descending record (clear, drop, return
its source peer); a matching transit-table entry (remove it and return the
endpoint other than from, or for a local teardown whichever endpoint is not
the local router); and otherwise returns null. -/
theorem claim5_teardownPath_cases (s : State) (fromP : Option Peer)
    (pathKey : types.PublicKey) (pathID : types.VirtualSnakePathID) :
    (∀ asc, s.ascending = some asc → asc.PathID = pathID →
      ((fromP ≠ none ∧ s.public = pathKey) ∨ (fromP = none ∧ asc.PublicKey = pathKey)) →
      teardownPath s fromP pathKey pathID =
        { state := { s with
            ascending := none
            table := tableErase s.table { PublicKey := asc.PublicKey, PathID := asc.PathID } },
          out := [Output.maintainSnakeIn 0], nexthop := some asc.Source }) ∧
    ((∀ asc, s.ascending = some asc → ¬ (asc.PathID = pathID ∧
        ((fromP ≠ none ∧ s.public = pathKey) ∨ (fromP = none ∧ asc.PublicKey = pathKey)))) →
      (∀ desc, s.descending = some desc → desc.PublicKey = pathKey → desc.PathID = pathID →
        teardownPath s fromP pathKey pathID =
          { state := { s with
              descending := none
              table := tableErase s.table { PublicKey := desc.PublicKey, PathID := desc.PathID } },
            out := [], nexthop := some desc.Source }) ∧
      ((∀ desc, s.descending = some desc → ¬ (desc.PublicKey = pathKey ∧ desc.PathID = pathID)) →
        (∀ kv, s.table.find? (fun x => x.1.PublicKey == pathKey && x.1.PathID == pathID) = some kv →
          teardownPath s fromP pathKey pathID =
            { state := { s with table := tableErase s.table kv.1 }, out := [],
              nexthop :=
                match fromP with
                | some f =>
                  if f = kv.2.Source ∧ kv.2.Destination ≠ s.localPeer then some kv.2.Destination
                  else if f = kv.2.Destination ∧ kv.2.Source ≠ s.localPeer then some kv.2.Source
                  else none
                | none =>
                  if kv.2.Source ≠ s.localPeer then some kv.2.Source
                  else if kv.2.Destination ≠ s.localPeer then some kv.2.Destination
                  else none }) ∧
        (s.table.find? (fun x => x.1.PublicKey == pathKey && x.1.PathID == pathID) = none →
          teardownPath s fromP pathKey pathID = { state := s, out := [], nexthop := none }))) := by
  refine ⟨?_, ?_⟩
  · intro asc hasc hpid hcase
    unfold teardownPath
    rw [hasc]
    dsimp only
    rw [if_pos ⟨hpid, hcase⟩]
  · intro hnoasc
    have hdesc_entry : teardownPath s fromP pathKey pathID = teardownDesc s fromP pathKey pathID := by
      unfold teardownPath
      cases hA : s.ascending with
      | none => rfl
      | some asc =>
        dsimp only
        rw [if_neg (hnoasc asc hA)]
    refine ⟨?_, ?_⟩
    · intro desc hdesc hpk hpid
      rw [hdesc_entry]
      unfold teardownDesc
      rw [hdesc]
      dsimp only
      rw [if_pos ⟨hpk, hpid⟩]
    · intro hnodesc
      have hscan_entry : teardownPath s fromP pathKey pathID = teardownScan s fromP pathKey pathID := by
        rw [hdesc_entry]
        unfold teardownDesc
        cases hD : s.descending with
        | none => rfl
        | some desc =>
          dsimp only
          rw [if_neg (hnodesc desc hD)]
      refine ⟨?_, ?_⟩
      · intro kv hkv
        rw [hscan_entry]
        unfold teardownScan
        rw [hkv]
      · intro hnone
        rw [hscan_entry]
        unfold teardownScan
        rw [hnone]

/-- Witness for C5: the ascending case at a concrete state. -/
theorem claim5_witness :
    teardownPath s5w none 9 1 =
      { state := { s5w with
          ascending := none
          table := tableErase s5w.table { PublicKey := asc5w.PublicKey, PathID := asc5w.PathID } },
        out := [Output.maintainSnakeIn 0], nexthop := some asc5w.Source } :=
  (claim5_teardownPath_cases s5w none 9 1).1 asc5w rfl rfl (Or.inr ⟨rfl, rfl⟩)

/-! Claim C8. -/

/-- C8: a Setup whose precomputed tree next-hop list is empty or starts at
the local router, while the destination key is not the local key, causes
_handleSetup to push a teardown for (rx.SourceKey, setup.PathID) back to the
arrival peer, create no snake-table entry, and return a nil error. -/
theorem claim8_deadend_setup (s : State) (now : Nat) (fromP : Peer) (rx : types.Frame)
    (nextHops : List Peer) (su : types.VirtualSnakeSetup)
    (hpl : rx.payload = types.Payload.setup su)
    (hdead : nextHops = [] ∨ nextHops.head? = some s.localPeer)
    (hdest : rx.DestinationKey ≠ s.public) :
    (handleSetup s now fromP rx nextHops).err = none ∧
    (handleSetup s now fromP rx nextHops).state.table.Sublist s.table ∧
    Output.push fromP (getTeardown s rx.SourceKey su.PathID false) ∈
      (handleSetup s now fromP rx nextHops).out := by
  unfold handleSetup
  rw [hpl]
  dsimp only
  rw [if_pos ⟨hdead, hdest⟩]
  unfold sendTeardownForPath
  dsimp only
  exact ⟨rfl, teardownPath_table_sublist s none rx.SourceKey su.PathID,
    List.mem_append_right _ (List.mem_singleton.mpr rfl)⟩

/-- Witness for C8 at a concrete state and frame. -/
theorem claim8_witness :
    (handleSetup baseState 0 pA rx8 []).err = none ∧
    (handleSetup baseState 0 pA rx8 []).state.table.Sublist baseState.table ∧
    Output.push pA (getTeardown baseState 2 7 false) ∈ (handleSetup baseState 0 pA rx8 []).out :=
  claim8_deadend_setup baseState 0 pA rx8 [] { PathID := 7, RootPublicKey := 5, RootSequence := 0 }
    rfl (Or.inl rfl) (by decide)

theorem becomeRoot_state_fields (s : State) :
    (becomeRoot s).1.announcements = s.announcements ∧
    (becomeRoot s).1.ordering = s.ordering ∧
    (becomeRoot s).1.ascending = s.ascending ∧
    (becomeRoot s).1.descending = s.descending ∧
    (becomeRoot s).1.public = s.public ∧
    (becomeRoot s).1.table = s.table := by
  unfold becomeRoot
  split <;> exact ⟨rfl, rfl, rfl, rfl, rfl, rfl⟩

theorem selectNewParent_state_fields (s : State) (now : Nat) :
    (selectNewParent s now).1.announcements = s.announcements ∧
    (selectNewParent s now).1.ordering = s.ordering ∧
    (selectNewParent s now).1.ascending = s.ascending ∧
    (selectNewParent s now).1.descending = s.descending ∧
    (selectNewParent s now).1.public = s.public ∧
    (selectNewParent s now).1.table = s.table := by
  unfold selectNewParent
  dsimp only
  cases (s.announcements.foldl (selectStep s.public now) (initialBest s.public)).bestPeer with
  | none => exact becomeRoot_state_fields s
  | some bp =>
    dsimp only
    split <;> exact ⟨rfl, rfl, rfl, rfl, rfl, rfl⟩

theorem treeAnnouncementApply_state_fields (act : TreeAction) (s1 : State) (now : Nat)
    (p : Peer) :
    (treeAnnouncementApply act s1 now p).1.announcements = s1.announcements ∧
    (treeAnnouncementApply act s1 now p).1.ordering = s1.ordering ∧
    (treeAnnouncementApply act s1 now p).1.ascending = s1.ascending ∧
    (treeAnnouncementApply act s1 now p).1.descending = s1.descending ∧
    (treeAnnouncementApply act s1 now p).1.public = s1.public ∧
    (treeAnnouncementApply act s1 now p).1.table = s1.table := by
  cases act with
  | reselect => exact selectNewParent_state_fields s1 now
  | adopt => exact ⟨rfl, rfl, rfl, rfl, rfl, rfl⟩
  | rebroadcast => exact ⟨rfl, rfl, rfl, rfl, rfl, rfl⟩
  | nothing => exact ⟨rfl, rfl, rfl, rfl, rfl, rfl⟩

theorem annLookup_annInsert_self (m : List (Peer × rootAnnouncementWithTime)) (p : Peer)
    (a : rootAnnouncementWithTime) : annLookup (annInsert m p a) p = some a := by
  unfold annLookup annInsert
  rw [List.find?_cons_of_pos _ (by simp)]
  rfl

/-- Soundness of the validation loop of _handleTreeAnnouncement: when it
accepts, every hop is nonzero, no signer repeats (and none was seen before),
the last signer is the sending peer, and (from the start of the loop) the
first signer is the root key. -/
theorem checkSigs_none_sound (root pk : types.PublicKey) :
    ∀ (l : List types.SignatureWithHop) (i : Nat) (seen : List types.PublicKey),
      checkSigs root pk i seen l = none →
      (∀ x ∈ l, x.Hop ≠ 0) ∧
      (l.map (fun x => x.PublicKey)).Nodup ∧
      (∀ k ∈ l.map (fun x => x.PublicKey), k ∉ seen) ∧
      (∀ x, l.getLast? = some x → x.PublicKey = pk) ∧
      (i = 0 → ∀ x, l.head? = some x → x.PublicKey = root) := by
  intro l
  induction l with
  | nil => intro i seen _; simp
  | cons sig rest ih =>
    intro i seen h
    unfold checkSigs at h
    split_ifs at h with h1 h2 h3 h4
    obtain ⟨hHop, hNodup, hSeen, hLast, hHead⟩ := ih (i + 1) (sig.PublicKey :: seen) h
    refine ⟨?_, ?_, ?_, ?_, ?_⟩
    · intro x hx
      rcases List.mem_cons.mp hx with hx | hx
      · subst hx; exact h2
      · exact hHop x hx
    · rw [List.map_cons, List.nodup_cons]
      refine ⟨?_, hNodup⟩
      intro hmem
      exact (hSeen _ hmem) (List.mem_cons_self _ _)
    · intro k hk
      rw [List.map_cons] at hk
      rcases List.mem_cons.mp hk with hk1 | hk1
      · subst hk1
        intro hks
        exact h4 hks
      · intro hks
        exact (hSeen _ hk1) (List.mem_cons_of_mem _ hks)
    · intro x hx
      cases hr : rest with
      | nil =>
        subst hr
        simp only [List.getLast?_singleton, Option.some.injEq] at hx
        subst hx
        by_contra hne
        exact h3 ⟨rfl, fun he => hne he.symm⟩
      | cons b bs =>
        subst hr
        exact hLast x (by simpa [List.getLast?_cons_cons] using hx)
    · intro hi x hx
      simp only [List.head?_cons, Option.some.injEq] at hx
      subst hx
      by_contra hne
      exact h1 ⟨hi, hne⟩

/-! Claim C9. -/

/-- C9: a tree announcement that decodes but has no signatures, repeats a
signer, contains a zero hop, whose first signer is not the root key, or
whose last signer is not the sending peer, makes _handleTreeAnnouncement
return an error with no state change and no emitted effect. -/
theorem claim9_invalid_announcement_rejected (s : State) (now : Nat) (p : Peer)
    (f : types.Frame) (ann : types.SwitchAnnouncement)
    (hpl : f.payload = types.Payload.announcement ann)
    (hbad : ann.Signatures = [] ∨
      ¬ (ann.Signatures.map (fun x => x.PublicKey)).Nodup ∨
      (∃ x ∈ ann.Signatures, x.Hop = 0) ∨
      ann.Signatures.head?.map (fun x => x.PublicKey) ≠ some ann.RootPublicKey ∨
      ann.Signatures.getLast?.map (fun x => x.PublicKey) ≠ some p.public) :
    (handleTreeAnnouncement s now p f).state = s ∧
    (handleTreeAnnouncement s now p f).out = [] ∧
    (handleTreeAnnouncement s now p f).err.isSome = true := by
  unfold handleTreeAnnouncement
  rw [hpl]
  dsimp only
  by_cases hemp : ann.Signatures = []
  · rw [if_pos hemp]
    exact ⟨rfl, rfl, rfl⟩
  · rw [if_neg hemp]
    cases hcs : checkSigs ann.RootPublicKey p.public 0 [] ann.Signatures with
    | some e =>
      dsimp only
      exact ⟨rfl, rfl, rfl⟩
    | none =>
      exfalso
      obtain ⟨hHop, hNodup, _, hLast, hHead⟩ :=
        checkSigs_none_sound ann.RootPublicKey p.public ann.Signatures 0 [] hcs
      rcases hbad with h | h | h | h | h
      · exact hemp h
      · exact h hNodup
      · obtain ⟨x, hx, hx0⟩ := h
        exact hHop x hx hx0
      · apply h
        cases hx : ann.Signatures.head? with
        | none => exact absurd (List.head?_eq_none_iff.mp hx) hemp
        | some a => simp [hHead rfl a hx]
      · apply h
        cases hx : ann.Signatures.getLast? with
        | none => exact absurd (List.getLast?_eq_none_iff.mp hx) hemp
        | some a => simp [hLast a hx]

/-- Witness for C9: a concrete announcement with a zero hop is rejected. -/
theorem claim9_witness :
    (handleTreeAnnouncement baseState 5 pA fC9).state = baseState ∧
    (handleTreeAnnouncement baseState 5 pA fC9).out = [] ∧
    (handleTreeAnnouncement baseState 5 pA fC9).err.isSome = true :=
  claim9_invalid_announcement_rejected baseState 5 pA fC9 _ rfl
    (Or.inr (Or.inr (Or.inl (by decide))))

/-! Claim C1. -/

/-- C1 as stated is false: an announcement whose signature list contains the
local public key, but which passes the structural checks, is stored and
advances the receive-order counter.  Here the current parent pB holds a
genuinely fresh record (received at 10, handled at 15, within
announce_timeout), so the stale branch does not fire, and the strictly
better root key even makes the loop announcement's sender pA the new
parent. -/
theorem claim1_counterexample :
    sC1.public ∈ annC1.Signatures.map (fun x => x.PublicKey) ∧
    sC1.parent = some pB ∧
    (15 : Nat) - (rootAnnouncement sC1).receiveTime < announcementTimeout ∧
    (handleTreeAnnouncement sC1 15 pA fC1).state.ordering = sC1.ordering + 1 ∧
    annLookup (handleTreeAnnouncement sC1 15 pA fC1).state.announcements pA =
      some { announcement := annC1, receiveTime := 15, receiveOrder := sC1.ordering + 1 } ∧
    (handleTreeAnnouncement sC1 15 pA fC1).state.parent = some pA ∧
    (handleTreeAnnouncement sC1 15 pA fC1).state ≠ sC1 := by
  exact ⟨by decide, by decide, by decide, by decide, by decide, by decide, by decide⟩

/-- C1 amended: a structurally valid tree announcement containing the local
public key in its signature list is not rejected by _handleTreeAnnouncement:
it is stored as the peer record and the receive-order counter advances (the
loop through the local key is only considered later, during parent
selection). -/
theorem claim1_amended (s : State) (now : Nat) (p : Peer) (f : types.Frame)
    (ann : types.SwitchAnnouncement)
    (hpl : f.payload = types.Payload.announcement ann)
    (hne : ann.Signatures ≠ [])
    (hok : checkSigs ann.RootPublicKey p.public 0 [] ann.Signatures = none)
    (hloc : s.public ∈ ann.Signatures.map (fun x => x.PublicKey)) :
    (handleTreeAnnouncement s now p f).err = none ∧
    (handleTreeAnnouncement s now p f).state.ordering = s.ordering + 1 ∧
    annLookup (handleTreeAnnouncement s now p f).state.announcements p =
      some { announcement := ann, receiveTime := now, receiveOrder := s.ordering + 1 } := by
  unfold handleTreeAnnouncement
  rw [hpl]
  dsimp only
  rw [if_neg hne, hok]
  dsimp only
  refine ⟨rfl, ?_, ?_⟩
  · exact (treeAnnouncementApply_state_fields _ _ _ _).2.1
  · rw [(treeAnnouncementApply_state_fields _ _ _ _).1]
    exact annLookup_annInsert_self _ _ _

/-- Witness for C1 amended at the counterexample fixture. -/
theorem claim1_witness :
    (handleTreeAnnouncement sC1 15 pA fC1).err = none ∧
    (handleTreeAnnouncement sC1 15 pA fC1).state.ordering = sC1.ordering + 1 ∧
    annLookup (handleTreeAnnouncement sC1 15 pA fC1).state.announcements pA =
      some { announcement := annC1, receiveTime := 15, receiveOrder := sC1.ordering + 1 } :=
  claim1_amended sC1 15 pA fC1 annC1 rfl (by decide) (by decide) (by decide)

theorem compareTo_pos_iff (a b : types.PublicKey) : 0 < compareTo a b ↔ b < a := by
  unfold compareTo
  split_ifs with h1 h2
  · exact iff_of_false (by decide) (Nat.lt_asymm h1)
  · exact iff_of_true (by decide) h2
  · exact iff_of_false (by decide) h2

theorem compareTo_neg_iff (a b : types.PublicKey) : compareTo a b < 0 ↔ a < b := by
  unfold compareTo
  split_ifs with h1 h2
  · exact iff_of_true (by decide) h1
  · exact iff_of_false (by decide) h1
  · exact iff_of_false (by decide) h1

theorem compareTo_eq_zero_iff (a b : types.PublicKey) : compareTo a b = 0 ↔ a = b := by
  unfold compareTo
  split_ifs with h1 h2
  · exact iff_of_false (by decide) (Nat.ne_of_lt h1)
  · exact iff_of_false (by decide) (Ne.symm (Nat.ne_of_lt h2))
  · exact iff_of_true rfl (Nat.le_antisymm (Nat.le_of_not_lt h2) (Nat.le_of_not_lt h1))

/-! Claim C3. -/

/-- C3 as stated is false: with a fresh parent record, equal root key and a
new sequence strictly below the stored one, no switch case fires, so
_selectNewParent is not invoked (re-selection would have moved the parent to
the better peer pB; the handler leaves it at pA). -/
theorem claim3_counterexample :
    sC3.parent = some pA ∧
    (5 : Nat) - (rootAnnouncement sC3).receiveTime < announcementTimeout ∧
    ¬ (rootAnnouncement sC3).announcement.RootPublicKey < annC3.RootPublicKey ∧
    annC3.Sequence ≤ (rootAnnouncement sC3).announcement.Sequence ∧
    annC3.IsLoopOrChildOf sC3.public = false ∧
    (handleTreeAnnouncement sC3 5 pA fC3).state.parent = some pA ∧
    (selectNewParent (handleTreeAnnouncement sC3 5 pA fC3).state 5).1.parent = some pB := by
  refine ⟨by decide, by decide, by decide, by decide, by decide, by decide, by decide⟩

/-- C3 amended: under the claim hypotheses (valid announcement from the
current parent, fresh stored record, root key not strictly better), the
handler re-selects the parent exactly when the re-broadcast case does not
fire (root key equal and strictly greater sequence) and the announcement is
a loop or child of the local key, or its root key is strictly smaller, or
its root key is equal and its sequence is greater than or equal to the
stored one; a strictly smaller sequence with equal root key falls through
every case.  When it re-selects, the resulting state is that of
_selectNewParent applied to the state with the announcement stored. -/
theorem claim3_amended (s : State) (now : Nat) (p : Peer) (f : types.Frame)
    (ann : types.SwitchAnnouncement)
    (hpl : f.payload = types.Payload.announcement ann)
    (hne : ann.Signatures ≠ [])
    (hok : checkSigs ann.RootPublicKey p.public 0 [] ann.Signatures = none)
    (hparent : s.parent = some p)
    (hfresh : now - (rootAnnouncement s).receiveTime < announcementTimeout)
    (hkey : ¬ (rootAnnouncement s).announcement.RootPublicKey < ann.RootPublicKey) :
    (treeAnnouncementAction now (rootAnnouncement s).receiveTime true
        (compareTo ann.RootPublicKey (rootAnnouncement s).announcement.RootPublicKey)
        (ann.IsLoopOrChildOf s.public) ann.Sequence (rootAnnouncement s).announcement.Sequence
      = TreeAction.reselect ↔
      (¬ (ann.RootPublicKey = (rootAnnouncement s).announcement.RootPublicKey ∧
          (rootAnnouncement s).announcement.Sequence < ann.Sequence) ∧
        (ann.IsLoopOrChildOf s.public = true ∨
          ann.RootPublicKey < (rootAnnouncement s).announcement.RootPublicKey ∨
          (ann.RootPublicKey = (rootAnnouncement s).announcement.RootPublicKey ∧
            (rootAnnouncement s).announcement.Sequence ≤ ann.Sequence)))) ∧
    (treeAnnouncementAction now (rootAnnouncement s).receiveTime true
        (compareTo ann.RootPublicKey (rootAnnouncement s).announcement.RootPublicKey)
        (ann.IsLoopOrChildOf s.public) ann.Sequence (rootAnnouncement s).announcement.Sequence
      = TreeAction.reselect →
      (handleTreeAnnouncement s now p f).state =
        (selectNewParent
          { s with
            ordering := s.ordering + 1
            announcements := annInsert s.announcements p
              { announcement := ann, receiveTime := now, receiveOrder := s.ordering + 1 } }
          now).1) := by
  have hzero := compareTo_eq_zero_iff ann.RootPublicKey
    (rootAnnouncement s).announcement.RootPublicKey
  have hneg := compareTo_neg_iff ann.RootPublicKey
    (rootAnnouncement s).announcement.RootPublicKey
  have hpos := compareTo_pos_iff ann.RootPublicKey
    (rootAnnouncement s).announcement.RootPublicKey
  constructor
  · unfold treeAnnouncementAction
    rw [if_neg (by omega : ¬ announcementTimeout ≤ now - (rootAnnouncement s).receiveTime)]
    rw [if_neg (fun hp => hkey (hpos.mp hp))]
    split_ifs with h3 h4 h5 h6
    · refine iff_of_false (by decide) ?_
      intro hR
      exact hR.1 ⟨hzero.mp h3.2.1, h3.2.2⟩
    · refine iff_of_true rfl ?_
      refine ⟨?_, Or.inl h4.2⟩
      intro hc
      exact h3 ⟨rfl, hzero.mpr hc.1, hc.2⟩
    · refine iff_of_true rfl ?_
      refine ⟨?_, Or.inr (Or.inl (hneg.mp h5.2))⟩
      intro hc
      exact h3 ⟨rfl, hzero.mpr hc.1, hc.2⟩
    · refine iff_of_true rfl ?_
      refine ⟨?_, Or.inr (Or.inr ⟨hzero.mp h6.2.1, h6.2.2⟩)⟩
      intro hc
      exact h3 ⟨rfl, hzero.mpr hc.1, hc.2⟩
    · refine iff_of_false (by decide) ?_
      intro hR
      rcases hR.2 with hL | hK | hK
      · exact h4 ⟨rfl, hL⟩
      · exact h5 ⟨rfl, hneg.mpr hK⟩
      · exact h6 ⟨rfl, hzero.mpr hK.1, hK.2⟩
  · intro hact
    unfold handleTreeAnnouncement
    rw [hpl]
    dsimp only
    rw [if_neg hne, hok]
    dsimp only
    rw [hparent, beq_self_eq_true, hact]
    rfl

/-- Witness for C3 amended: equal root key and equal sequence from the
current parent triggers re-selection, which moves the parent to pB. -/
theorem claim3_witness :
    ((treeAnnouncementAction 5 (rootAnnouncement sC3).receiveTime true
        (compareTo annC3b.RootPublicKey (rootAnnouncement sC3).announcement.RootPublicKey)
        (annC3b.IsLoopOrChildOf sC3.public) annC3b.Sequence
        (rootAnnouncement sC3).announcement.Sequence = TreeAction.reselect) ∧
      (handleTreeAnnouncement sC3 5 pA fC3b).state =
        (selectNewParent
          { sC3 with
            ordering := sC3.ordering + 1
            announcements := annInsert sC3.announcements pA
              { announcement := annC3b, receiveTime := 5, receiveOrder := sC3.ordering + 1 } }
          5).1) ∧
    (handleTreeAnnouncement sC3 5 pA fC3b).state.parent = some pB := by
  have h := claim3_amended sC3 5 pA fC3b annC3b rfl (by decide) (by decide) (by decide)
    (by decide) (by decide)
  have hact : treeAnnouncementAction 5 (rootAnnouncement sC3).receiveTime true
      (compareTo annC3b.RootPublicKey (rootAnnouncement sC3).announcement.RootPublicKey)
      (annC3b.IsLoopOrChildOf sC3.public) annC3b.Sequence
      (rootAnnouncement sC3).announcement.Sequence = TreeAction.reselect := by decide
  exact ⟨⟨hact, h.2 hact⟩, by decide⟩

theorem ordLT_some_iff (o v : Nat) : ordLT o (some v) = true ↔ o < v := by
  simp [ordLT]

theorem ordLT_trans (o1 o2 : Nat) (b : Option Nat) (h1 : o1 < o2)
    (h2 : ordLT o2 b = true) : ordLT o1 b = true := by
  cases b with
  | none => rfl
  | some v => exact (ordLT_some_iff o1 v).mpr (lt_trans h1 ((ordLT_some_iff o2 v).mp h2))

/-- The candidate loop body accepts exactly the fresh, non-loop candidates
that strictly beat the running best in the (root key, sequence, receive
order) ranking. -/
theorem selectStep_eq (pub : types.PublicKey) (now : Nat) (b : Best)
    (pa : Peer × rootAnnouncementWithTime) :
    selectStep pub now b pa =
      if validCandidate pub now pa ∧ beats pa b then acceptBest pa else b := by
  by_cases hT : announcementTimeout ≤ now - pa.2.receiveTime
  · rw [if_neg (fun hc => absurd hc.1.1 (by omega))]
    unfold selectStep
    rw [if_pos hT]
  · by_cases hL : pa.2.announcement.IsLoopOrChildOf pub = true
    · rw [if_neg (fun hc => by rw [hc.1.2] at hL; exact Bool.false_ne_true hL)]
      unfold selectStep
      dsimp only
      rw [if_neg hT, if_pos hL]
    · have hv : validCandidate pub now pa := by
        refine ⟨by omega, ?_⟩
        cases h : pa.2.announcement.IsLoopOrChildOf pub
        · rfl
        · exact absurd h hL
      unfold selectStep
      dsimp only
      rw [if_neg hT, if_neg hL]
      by_cases h3 : b.bestKey < pa.2.announcement.RootPublicKey
      · rw [if_pos h3, if_pos ⟨hv, Or.inl h3⟩]
        rfl
      · rw [if_neg h3]
        by_cases h4 : pa.2.announcement.RootPublicKey < b.bestKey
        · rw [if_pos h4, if_neg (fun hc => by
            rcases hc.2 with h | h | h
            · exact h3 h
            · rw [h.1] at h4; exact lt_irrefl _ h4
            · rw [h.1] at h4; exact lt_irrefl _ h4)]
        · have hk : pa.2.announcement.RootPublicKey = b.bestKey :=
            Nat.le_antisymm (Nat.le_of_not_lt h3) (Nat.le_of_not_lt h4)
          rw [if_neg h4]
          by_cases h5 : b.bestSeq < pa.2.announcement.Sequence
          · rw [if_pos h5, if_pos ⟨hv, Or.inr (Or.inl ⟨hk, h5⟩)⟩]
            rfl
          · rw [if_neg h5]
            by_cases h6 : pa.2.announcement.Sequence < b.bestSeq
            · rw [if_pos h6, if_neg (fun hc => by
                rcases hc.2 with h | h | h
                · exact h3 h
                · exact h5 h.2
                · rw [h.2.1] at h6; exact lt_irrefl _ h6)]
            · have hs : pa.2.announcement.Sequence = b.bestSeq :=
                Nat.le_antisymm (Nat.le_of_not_lt h5) (Nat.le_of_not_lt h6)
              rw [if_neg h6]
              by_cases h7 : ordLT pa.2.receiveOrder b.bestOrder = true
              · rw [if_pos h7, if_pos ⟨hv, Or.inr (Or.inr ⟨hk, hs, h7⟩)⟩]
                rfl
              · rw [if_neg h7, if_neg (fun hc => by
                  rcases hc.2 with h | h | h
                  · exact h3 h
                  · exact h5 h.2
                  · exact h7 h.2.2)]

theorem not_beats_acceptBest_self (pa : Peer × rootAnnouncementWithTime) :
    ¬ beats pa (acceptBest pa) := by
  unfold beats acceptBest
  dsimp only
  intro h
  rcases h with h | h | h
  · exact lt_irrefl _ h
  · exact lt_irrefl _ h.2
  · exact lt_irrefl _ ((ordLT_some_iff _ _).mp h.2.2)

theorem not_beats_of_accept (pa x : Peer × rootAnnouncementWithTime) (b : Best)
    (h1 : ¬ beats pa b) (h2 : beats x b) : ¬ beats pa (acceptBest x) := by
  intro hcon
  apply h1
  unfold beats acceptBest at *
  dsimp only at hcon
  rcases h2 with h2 | h2 | h2 <;> rcases hcon with hc | hc | hc
  · exact Or.inl (lt_trans h2 hc)
  · exact Or.inl (by rw [hc.1]; exact h2)
  · exact Or.inl (by rw [hc.1]; exact h2)
  · exact Or.inl (by rw [← h2.1]; exact hc)
  · exact Or.inr (Or.inl ⟨hc.1.trans h2.1, lt_trans h2.2 hc.2⟩)
  · exact Or.inr (Or.inl ⟨hc.1.trans h2.1, by rw [hc.2.1]; exact h2.2⟩)
  · exact Or.inl (by rw [← h2.1]; exact hc)
  · exact Or.inr (Or.inl ⟨hc.1.trans h2.1, by rw [← h2.2.1]; exact hc.2⟩)
  · exact Or.inr (Or.inr ⟨hc.1.trans h2.1, hc.2.1.trans h2.2.1,
      ordLT_trans _ _ _ ((ordLT_some_iff _ _).mp hc.2.2) h2.2.2⟩)

/-- The candidate fold of _selectNewParent: when it picks nobody it is the
initial sentinel, when it picks a peer that peer is a valid candidate in the
map whose record the final best equals, and no valid candidate in the map
strictly beats the final best. -/
theorem selectFold_spec (pub : types.PublicKey) (now : Nat)
    (l : List (Peer × rootAnnouncementWithTime)) :
    ((l.foldl (selectStep pub now) (initialBest pub)).bestPeer = none →
      l.foldl (selectStep pub now) (initialBest pub) = initialBest pub) ∧
    (∀ bp, (l.foldl (selectStep pub now) (initialBest pub)).bestPeer = some bp →
      ∃ ann, (bp, ann) ∈ l ∧ validCandidate pub now (bp, ann) ∧
        l.foldl (selectStep pub now) (initialBest pub) = acceptBest (bp, ann)) ∧
    (∀ pa ∈ l, validCandidate pub now pa →
      ¬ beats pa (l.foldl (selectStep pub now) (initialBest pub))) := by
  induction l using List.reverseRecOn with
  | nil =>
    refine ⟨fun _ => rfl, ?_, ?_⟩
    · intro bp h
      simp [initialBest] at h
    · intro pa hpa
      simp at hpa
  | append_singleton l x ih =>
    obtain ⟨ih1, ih2, ih3⟩ := ih
    rw [List.foldl_append, List.foldl_cons, List.foldl_nil, selectStep_eq]
    by_cases hcond : validCandidate pub now x ∧
        beats x (l.foldl (selectStep pub now) (initialBest pub))
    · rw [if_pos hcond]
      refine ⟨?_, ?_, ?_⟩
      · intro h
        simp [acceptBest] at h
      · intro bp hbp
        have hx1 : bp = x.1 := by
          have : some x.1 = some bp := by simpa [acceptBest] using hbp
          exact (Option.some.injEq _ _ ▸ this).symm
        subst hx1
        exact ⟨x.2, List.mem_append_right _ (List.mem_singleton.mpr rfl), hcond.1, rfl⟩
      · intro pa hpa hv
        rcases List.mem_append.mp hpa with hin | hin
        · exact not_beats_of_accept pa x _ (ih3 pa hin hv) hcond.2
        · rw [List.mem_singleton.mp hin]
          exact not_beats_acceptBest_self x
    · rw [if_neg hcond]
      refine ⟨ih1, ?_, ?_⟩
      · intro bp hbp
        obtain ⟨ann, hmem, hv, heq⟩ := ih2 bp hbp
        exact ⟨ann, List.mem_append_left _ hmem, hv, heq⟩
      · intro pa hpa hv
        rcases List.mem_append.mp hpa with hin | hin
        · exact ih3 pa hin hv
        · rw [List.mem_singleton.mp hin]
          intro hbeats
          exact hcond ⟨(List.mem_singleton.mp hin) ▸ hv, hbeats⟩

/-! Claim C4. -/

/-- C4 as stated is false in one point: when no candidate survives and the
node is already root, _becomeRoot returns early, so no immediate tree
maintenance is scheduled. -/
theorem claim4_counterexample :
    baseState.parent = none ∧
    (baseState.announcements.foldl (selectStep baseState.public 0)
      (initialBest baseState.public)).bestPeer = none ∧
    (selectNewParent baseState 0).1.parent = none ∧
    (selectNewParent baseState 0).2 = [] ∧
    ¬ Output.maintainTreeIn 0 ∈ (selectNewParent baseState 0).2 := by
  exact ⟨by decide, by decide, by decide, by decide, by decide⟩

/-- C4 amended: _selectNewParent considers only candidates younger than
announce_timeout that are not loops/children of the local key, ranked by
strictly greater root key, then strictly greater sequence, then strictly
smaller receive order; a surviving candidate becomes the parent,
re-broadcasting only when the parent changed; otherwise the node becomes
root (parent = null) and schedules immediate tree maintenance provided it
was not already root (when it was, _becomeRoot returns without
scheduling). -/
theorem claim4_amended (s : State) (now : Nat) :
    (∀ bp, (s.announcements.foldl (selectStep s.public now)
        (initialBest s.public)).bestPeer = some bp →
      (selectNewParent s now).1.parent = some bp ∧
      (∃ ann, (bp, ann) ∈ s.announcements ∧ validCandidate s.public now (bp, ann)) ∧
      (∀ pa ∈ s.announcements, validCandidate s.public now pa →
        ¬ beats pa (s.announcements.foldl (selectStep s.public now) (initialBest s.public))) ∧
      (selectNewParent s now).2 =
        (if some bp ≠ s.parent then [Output.sendTreeAnnouncements] else [])) ∧
    ((s.announcements.foldl (selectStep s.public now)
        (initialBest s.public)).bestPeer = none →
      (∀ pa ∈ s.announcements, validCandidate s.public now pa →
        ¬ beats pa (initialBest s.public)) ∧
      (selectNewParent s now).1.parent = none ∧
      (selectNewParent s now).2 =
        (if s.parent = none then []
         else [Output.logCoords [], Output.maintainTreeIn 0])) := by
  obtain ⟨f1, f2, f3⟩ := selectFold_spec s.public now s.announcements
  constructor
  · intro bp hbp
    refine ⟨?_, ?_, f3, ?_⟩
    · unfold selectNewParent
      dsimp only
      rw [hbp]
      dsimp only
      by_cases hne : some bp ≠ s.parent
      · rw [if_pos hne]
      · rw [if_neg hne]
        exact (not_not.mp hne).symm
    · obtain ⟨ann, hm, hv, _⟩ := f2 bp hbp
      exact ⟨ann, hm, hv⟩
    · unfold selectNewParent
      dsimp only
      rw [hbp]
      dsimp only
      by_cases hne : some bp ≠ s.parent
      · rw [if_pos hne, if_pos hne]
      · rw [if_neg hne, if_neg hne]
  · intro hnone
    refine ⟨?_, ?_, ?_⟩
    · intro pa hm hv
      have h := f3 pa hm hv
      rwa [f1 hnone] at h
    · unfold selectNewParent
      dsimp only
      rw [hnone]
      dsimp only
      unfold becomeRoot
      split_ifs with h
      · exact h
      · rfl
    · unfold selectNewParent
      dsimp only
      rw [hnone]
      dsimp only
      unfold becomeRoot
      split_ifs with h
      · rfl
      · rfl

/-- Witness for C4 amended: at sC3 the surviving candidate pB (root key 11)
wins and becomes the parent, replacing pA. -/
theorem claim4_witness :
    (selectNewParent sC3 5).1.parent = some pB ∧
    (∃ ann, (pB, ann) ∈ sC3.announcements ∧ validCandidate sC3.public 5 (pB, ann)) ∧
    (∀ pa ∈ sC3.announcements, validCandidate sC3.public 5 pa →
      ¬ beats pa (sC3.announcements.foldl (selectStep sC3.public 5)
        (initialBest sC3.public))) ∧
    (selectNewParent sC3 5).2 =
      (if some pB ≠ sC3.parent then [Output.sendTreeAnnouncements] else []) :=
  (claim4_amended sC3 5).1 pB (by decide)

theorem distanceTo_eq_zero_iff : ∀ (a b : List Nat), distanceTo a b = 0 ↔ a = b := by
  intro a
  induction a with
  | nil =>
    intro b
    cases b with
    | nil => simp [distanceTo, lcpLen]
    | cons y ys =>
      refine iff_of_false ?_ (by simp)
      simp [distanceTo, lcpLen]
  | cons x xs ih =>
    intro b
    cases b with
    | nil =>
      refine iff_of_false ?_ (by simp)
      simp [distanceTo, lcpLen]
    | cons y ys =>
      by_cases hxy : x = y
      · subst hxy
        have hl : lcpLen (x :: xs) (x :: ys) = 1 + lcpLen xs ys := by
          simp [lcpLen]
        have key : distanceTo (x :: xs) (x :: ys) = distanceTo xs ys := by
          unfold distanceTo
          rw [hl]
          simp only [List.length_cons]
          omega
        rw [key, ih ys]
        simp
      · have hl : lcpLen (x :: xs) (y :: ys) = 0 := by
          simp [lcpLen, hxy]
        refine iff_of_false ?_ ?_
        · unfold distanceTo
          rw [hl]
          simp only [List.length_cons]
          omega
        · intro h
          injection h with h1 _
          exact hxy h1

/-- Soundness of the candidate scan of _nextHopsTree: every returned peer is
a non-local peer, different from the sender, with a stored announcement
sharing the given root key, strictly closer to the destination than
ourDist. -/
theorem nextHopsTreeScan_sound (s : State) (dest : types.SwitchPorts)
    (rootKey : types.PublicKey) (fromP : Peer) (ourDist : Nat) (hour : 0 < ourDist) :
    ∀ (l : List (Option Peer)) (bestDist : Nat) (acc : List Peer),
      bestDist ≤ ourDist →
      (∀ q ∈ acc, q ≠ s.localPeer ∧ q ≠ fromP ∧
        ∃ a, annLookup s.announcements q = some a ∧
          a.announcement.RootPublicKey = rootKey ∧
          distanceTo a.announcement.PeerCoords dest < ourDist) →
      ∀ q ∈ nextHopsTreeScan s dest rootKey fromP l bestDist acc,
        q ≠ s.localPeer ∧ q ≠ fromP ∧
        ∃ a, annLookup s.announcements q = some a ∧
          a.announcement.RootPublicKey = rootKey ∧
          distanceTo a.announcement.PeerCoords dest < ourDist := by
  intro l
  induction l with
  | nil =>
    intro bestDist acc _ hacc q hq
    exact hacc q hq
  | cons p? rest ih =>
    intro bestDist acc hb hacc q hq
    cases p? with
    | none => exact ih bestDist acc hb hacc q hq
    | some p =>
      unfold nextHopsTreeScan at hq
      by_cases hploc : p = s.localPeer
      · rw [if_pos hploc] at hq
        exact ih bestDist acc hb hacc q hq
      · rw [if_neg hploc] at hq
        cases hann : annLookup s.announcements p with
        | none =>
          rw [hann] at hq
          exact ih bestDist acc hb hacc q hq
        | some a =>
          rw [hann] at hq
          dsimp only at hq
          by_cases hskip : p = fromP ∨ a.announcement.RootPublicKey ≠ rootKey
          · rw [if_pos hskip] at hq
            exact ih bestDist acc hb hacc q hq
          · rw [if_neg hskip] at hq
            push_neg at hskip
            by_cases hdir : distanceTo a.announcement.PeerCoords dest = 0 ∨
                dest = a.announcement.PeerCoords
            · rw [if_pos hdir] at hq
              have hqp : q = p := List.mem_singleton.mp hq
              subst hqp
              refine ⟨hploc, hskip.1, a, hann, hskip.2, ?_⟩
              rcases hdir with h0 | heq
              · rw [h0]; exact hour
              · rw [(distanceTo_eq_zero_iff _ _).mpr heq.symm]; exact hour
            · rw [if_neg hdir] at hq
              by_cases hcl : distanceTo a.announcement.PeerCoords dest < bestDist
              · rw [if_pos hcl] at hq
                refine ih _ _ (le_of_lt (lt_of_lt_of_le hcl hb)) ?_ q hq
                intro r hr
                rcases List.mem_cons.mp hr with hr1 | hr1
                · subst hr1
                  exact ⟨hploc, hskip.1, a, hann, hskip.2, lt_of_lt_of_le hcl hb⟩
                · exact hacc r hr1
              · rw [if_neg hcl] at hq
                exact ih bestDist acc hb hacc q hq

theorem nextHopsTreeScan_nil_acc (s : State) (dest : types.SwitchPorts)
    (rootKey : types.PublicKey) (fromP : Peer) :
    ∀ (l : List (Option Peer)) (bestDist : Nat) (acc : List Peer),
      nextHopsTreeScan s dest rootKey fromP l bestDist acc = [] → acc = [] := by
  intro l
  induction l with
  | nil => intro bestDist acc h; exact h
  | cons p? rest ih =>
    intro bestDist acc h
    cases p? with
    | none => exact ih bestDist acc h
    | some p =>
      unfold nextHopsTreeScan at h
      by_cases hploc : p = s.localPeer
      · rw [if_pos hploc] at h; exact ih bestDist acc h
      · rw [if_neg hploc] at h
        cases hann : annLookup s.announcements p with
        | none => rw [hann] at h; exact ih bestDist acc h
        | some a =>
          rw [hann] at h
          dsimp only at h
          by_cases hskip : p = fromP ∨ a.announcement.RootPublicKey ≠ rootKey
          · rw [if_pos hskip] at h; exact ih bestDist acc h
          · rw [if_neg hskip] at h
            by_cases hdir : distanceTo a.announcement.PeerCoords dest = 0 ∨
                dest = a.announcement.PeerCoords
            · rw [if_pos hdir] at h
              exact absurd h (by simp)
            · rw [if_neg hdir] at h
              by_cases hcl : distanceTo a.announcement.PeerCoords dest < bestDist
              · rw [if_pos hcl] at h
                exact absurd (ih _ _ h) (by simp)
              · rw [if_neg hcl] at h
                exact ih bestDist acc h

/-- When the scan records nothing, every scanned valid peer fails to beat
the running best distance, is not at distance zero, and does not sit at the
destination coordinates. -/
theorem nextHopsTreeScan_empty (s : State) (dest : types.SwitchPorts)
    (rootKey : types.PublicKey) (fromP : Peer) :
    ∀ (l : List (Option Peer)) (bestDist : Nat) (acc : List Peer),
      nextHopsTreeScan s dest rootKey fromP l bestDist acc = [] →
      ∀ p a, some p ∈ l → p ≠ s.localPeer → annLookup s.announcements p = some a →
        p ≠ fromP → a.announcement.RootPublicKey = rootKey →
        ¬ distanceTo a.announcement.PeerCoords dest < bestDist ∧
        distanceTo a.announcement.PeerCoords dest ≠ 0 ∧
        dest ≠ a.announcement.PeerCoords := by
  intro l
  induction l with
  | nil =>
    intro bestDist acc _ p a hp
    exact absurd hp (by simp)
  | cons p? rest ih =>
    intro bestDist acc h p a hp hploc hann hpfrom hroot
    cases p? with
    | none =>
      rcases List.mem_cons.mp hp with hp1 | hp1
      · exact absurd hp1 (by simp)
      · exact ih bestDist acc h p a hp1 hploc hann hpfrom hroot
    | some p1 =>
      unfold nextHopsTreeScan at h
      by_cases hp1loc : p1 = s.localPeer
      · rw [if_pos hp1loc] at h
        rcases List.mem_cons.mp hp with hp1 | hp1
        · have : p = p1 := by injection hp1
          rw [this] at hploc
          exact absurd hp1loc hploc
        · exact ih bestDist acc h p a hp1 hploc hann hpfrom hroot
      · rw [if_neg hp1loc] at h
        cases hann1 : annLookup s.announcements p1 with
        | none =>
          rw [hann1] at h
          rcases List.mem_cons.mp hp with hp1 | hp1
          · have hpp : p = p1 := by injection hp1
            rw [hpp] at hann
            rw [hann] at hann1
            exact absurd hann1 (by simp)
          · exact ih bestDist acc h p a hp1 hploc hann hpfrom hroot
        | some a1 =>
          rw [hann1] at h
          dsimp only at h
          by_cases hskip : p1 = fromP ∨ a1.announcement.RootPublicKey ≠ rootKey
          · rw [if_pos hskip] at h
            rcases List.mem_cons.mp hp with hp1 | hp1
            · have hpp : p = p1 := by injection hp1
              subst hpp
              rw [hann] at hann1
              have ha : a = a1 := by injection hann1
              subst ha
              rcases hskip with hk | hk
              · exact absurd hk hpfrom
              · exact absurd hroot hk
            · exact ih bestDist acc h p a hp1 hploc hann hpfrom hroot
          · rw [if_neg hskip] at h
            by_cases hdir : distanceTo a1.announcement.PeerCoords dest = 0 ∨
                dest = a1.announcement.PeerCoords
            · rw [if_pos hdir] at h
              exact absurd h (by simp)
            · rw [if_neg hdir] at h
              by_cases hcl : distanceTo a1.announcement.PeerCoords dest < bestDist
              · rw [if_pos hcl] at h
                exact absurd (nextHopsTreeScan_nil_acc s dest rootKey fromP rest _ _ h) (by simp)
              · rw [if_neg hcl] at h
                rcases List.mem_cons.mp hp with hp1 | hp1
                · have hpp : p = p1 := by injection hp1
                  subst hpp
                  rw [hann] at hann1
                  have ha : a = a1 := by injection hann1
                  subst ha
                  push_neg at hdir
                  exact ⟨hcl, hdir.1, hdir.2⟩
                · exact ih bestDist acc h p a hp1 hploc hann hpfrom hroot

/-- The first scanned valid peer at distance zero or exactly at the
destination is returned directly as the whole result, whatever was recorded
before it. -/
theorem nextHopsTreeScan_direct (s : State) (dest : types.SwitchPorts)
    (rootKey : types.PublicKey) (fromP : Peer) (p : Peer) (a : rootAnnouncementWithTime)
    (hploc : p ≠ s.localPeer) (hann : annLookup s.announcements p = some a)
    (hpfrom : p ≠ fromP) (hroot : a.announcement.RootPublicKey = rootKey)
    (hdir : distanceTo a.announcement.PeerCoords dest = 0 ∨
      dest = a.announcement.PeerCoords) :
    ∀ (l1 l2 : List (Option Peer)) (bestDist : Nat) (acc : List Peer),
      (∀ q b, some q ∈ l1 → q ≠ s.localPeer → annLookup s.announcements q = some b →
        q ≠ fromP → b.announcement.RootPublicKey = rootKey →
        distanceTo b.announcement.PeerCoords dest ≠ 0 ∧
        dest ≠ b.announcement.PeerCoords) →
      nextHopsTreeScan s dest rootKey fromP (l1 ++ some p :: l2) bestDist acc = [p] := by
  intro l1
  induction l1 with
  | nil =>
    intro l2 bestDist acc _
    rw [List.nil_append]
    unfold nextHopsTreeScan
    rw [if_neg hploc, hann]
    dsimp only
    rw [if_neg (not_or.mpr ⟨hpfrom, fun hne => hne hroot⟩)]
    rw [if_pos hdir]
  | cons q? rest ih =>
    intro l2 bestDist acc hl1
    rw [List.cons_append]
    cases q? with
    | none =>
      exact ih l2 bestDist acc (fun q b hq => hl1 q b (List.mem_cons_of_mem _ hq))
    | some q =>
      unfold nextHopsTreeScan
      by_cases hqloc : q = s.localPeer
      · rw [if_pos hqloc]
        exact ih l2 bestDist acc (fun r b hr => hl1 r b (List.mem_cons_of_mem _ hr))
      · rw [if_neg hqloc]
        cases hannq : annLookup s.announcements q with
        | none =>
          exact ih l2 bestDist acc (fun r b hr => hl1 r b (List.mem_cons_of_mem _ hr))
        | some b =>
          dsimp only
          by_cases hskip : q = fromP ∨ b.announcement.RootPublicKey ≠ rootKey
          · rw [if_pos hskip]
            exact ih l2 bestDist acc (fun r c hr => hl1 r c (List.mem_cons_of_mem _ hr))
          · rw [if_neg hskip]
            push_neg at hskip
            have hnd := hl1 q b (List.mem_cons_self _ _) hqloc hannq hskip.1 hskip.2
            rw [if_neg (not_or.mpr ⟨hnd.1, hnd.2⟩)]
            by_cases hcl : distanceTo b.announcement.PeerCoords dest < bestDist
            · rw [if_pos hcl]
              exact ih l2 _ _ (fun r c hr => hl1 r c (List.mem_cons_of_mem _ hr))
            · rw [if_neg hcl]
              exact ih l2 bestDist acc (fun r c hr => hl1 r c (List.mem_cons_of_mem _ hr))

/-- The candidate list built by the scan is ordered by strictly increasing
distance to the destination: the most recently recorded (closest) candidate
is the head. -/
theorem nextHopsTreeScan_sorted (s : State) (dest : types.SwitchPorts)
    (rootKey : types.PublicKey) (fromP : Peer) :
    ∀ (l : List (Option Peer)) (bestDist : Nat) (acc : List Peer),
      List.Pairwise (fun x y => peerDistOf s dest x < peerDistOf s dest y) acc →
      (∀ q ∈ acc, bestDist ≤ peerDistOf s dest q) →
      List.Pairwise (fun x y => peerDistOf s dest x < peerDistOf s dest y)
        (nextHopsTreeScan s dest rootKey fromP l bestDist acc) := by
  intro l
  induction l with
  | nil =>
    intro bestDist acc hp _
    exact hp
  | cons p? rest ih =>
    intro bestDist acc hp hbd
    cases p? with
    | none => exact ih bestDist acc hp hbd
    | some p =>
      unfold nextHopsTreeScan
      by_cases hploc : p = s.localPeer
      · rw [if_pos hploc]
        exact ih bestDist acc hp hbd
      · rw [if_neg hploc]
        cases hann : annLookup s.announcements p with
        | none => exact ih bestDist acc hp hbd
        | some a =>
          dsimp only
          by_cases hskip : p = fromP ∨ a.announcement.RootPublicKey ≠ rootKey
          · rw [if_pos hskip]
            exact ih bestDist acc hp hbd
          · rw [if_neg hskip]
            by_cases hdir : distanceTo a.announcement.PeerCoords dest = 0 ∨
                dest = a.announcement.PeerCoords
            · rw [if_pos hdir]
              simp
            · rw [if_neg hdir]
              by_cases hcl : distanceTo a.announcement.PeerCoords dest < bestDist
              · rw [if_pos hcl]
                have hpd : peerDistOf s dest p = distanceTo a.announcement.PeerCoords dest := by
                  unfold peerDistOf
                  rw [hann]
                refine ih _ _ ?_ ?_
                · refine List.Pairwise.cons ?_ hp
                  intro q hq
                  rw [hpd]
                  exact lt_of_lt_of_le hcl (hbd q hq)
                · intro q hq
                  rcases List.mem_cons.mp hq with h | h
                  · subst h
                    exact le_of_eq hpd.symm
                  · exact le_trans (le_of_lt hcl) (hbd q h)
              · rw [if_neg hcl]
                exact ih bestDist acc hp hbd

/-! Claim C6. -/

/-- C6 as stated is false: an empty destination coordinate vector at a
non-root node is not delivered to the local router; it is routed like any
other destination (here: dropped, as no peer is closer). -/
theorem claim6_counterexample :
    fC6.Destination = [] ∧ coords sC6 ≠ [] ∧ nextHopsTree sC6 pB fC6 = [] ∧
    nextHopsTree sC6 pB fC6 ≠ [sC6.localPeer] := by
  exact ⟨by decide, by decide, by decide, by decide⟩

/-- C6 amended: _nextHopsTree delivers to the local router exactly on tree
distance zero (equivalently, destination equal to the local coordinates; an
empty destination is local only at the root).  Otherwise: every returned
peer is a non-local peer other than the sender whose stored announcement
shares the current root key and lies strictly closer to the destination
than the local distance; the first scanned valid peer at distance zero or
exactly at the destination is returned directly as the whole result; the
returned candidates are ordered most-recent-first by strictly increasing
distance, so the head is the last recorded (closest) candidate; and an
empty result means no valid peer beat the local distance, none was at
distance zero, and none sat at the destination. -/
theorem claim6_amended (s : State) (fromP : Peer) (f : types.Frame) :
    (distanceTo (coords s) f.Destination = 0 → nextHopsTree s fromP f = [s.localPeer]) ∧
    (distanceTo (coords s) f.Destination ≠ 0 →
      (∀ q ∈ nextHopsTree s fromP f, q ≠ s.localPeer ∧ q ≠ fromP ∧
        ∃ a, annLookup s.announcements q = some a ∧
          a.announcement.RootPublicKey = (rootAnnouncement s).announcement.RootPublicKey ∧
          distanceTo a.announcement.PeerCoords f.Destination <
            distanceTo (coords s) f.Destination) ∧
      (∀ l1 p a l2, s.peers = l1 ++ some p :: l2 →
        (∀ q b, some q ∈ l1 → q ≠ s.localPeer → annLookup s.announcements q = some b →
          q ≠ fromP →
          b.announcement.RootPublicKey = (rootAnnouncement s).announcement.RootPublicKey →
          distanceTo b.announcement.PeerCoords f.Destination ≠ 0 ∧
          f.Destination ≠ b.announcement.PeerCoords) →
        p ≠ s.localPeer → annLookup s.announcements p = some a → p ≠ fromP →
        a.announcement.RootPublicKey = (rootAnnouncement s).announcement.RootPublicKey →
        (distanceTo a.announcement.PeerCoords f.Destination = 0 ∨
          f.Destination = a.announcement.PeerCoords) →
        nextHopsTree s fromP f = [p]) ∧
      List.Pairwise
        (fun x y => peerDistOf s f.Destination x < peerDistOf s f.Destination y)
        (nextHopsTree s fromP f) ∧
      (nextHopsTree s fromP f = [] →
        ∀ p a, some p ∈ s.peers → p ≠ s.localPeer →
          annLookup s.announcements p = some a → p ≠ fromP →
          a.announcement.RootPublicKey = (rootAnnouncement s).announcement.RootPublicKey →
          ¬ distanceTo a.announcement.PeerCoords f.Destination <
              distanceTo (coords s) f.Destination ∧
          distanceTo a.announcement.PeerCoords f.Destination ≠ 0 ∧
          f.Destination ≠ a.announcement.PeerCoords)) := by
  constructor
  · intro h0
    have heq : coords s = f.Destination := (distanceTo_eq_zero_iff _ _).mp h0
    unfold nextHopsTree
    rw [if_pos heq.symm]
  · intro hne
    have hne2 : ¬ f.Destination = coords s := by
      intro h
      exact hne ((distanceTo_eq_zero_iff _ _).mpr h.symm)
    refine ⟨?_, ?_, ?_, ?_⟩
    · intro q hq
      unfold nextHopsTree at hq
      rw [if_neg hne2, if_neg hne] at hq
      exact nextHopsTreeScan_sound s f.Destination
        (rootAnnouncement s).announcement.RootPublicKey fromP
        (distanceTo (coords s) f.Destination) (Nat.pos_of_ne_zero hne)
        s.peers (distanceTo (coords s) f.Destination) [] (le_refl _)
        (by intro r hr; exact absurd hr (by simp)) q hq
    · intro l1 p a l2 hsplit hl1 hploc hann hpfrom hroot hdir
      unfold nextHopsTree
      rw [if_neg hne2, if_neg hne, hsplit]
      exact nextHopsTreeScan_direct s f.Destination
        (rootAnnouncement s).announcement.RootPublicKey fromP p a
        hploc hann hpfrom hroot hdir l1 l2
        (distanceTo (coords s) f.Destination) [] hl1
    · unfold nextHopsTree
      rw [if_neg hne2, if_neg hne]
      exact nextHopsTreeScan_sorted s f.Destination
        (rootAnnouncement s).announcement.RootPublicKey fromP
        s.peers (distanceTo (coords s) f.Destination) [] List.Pairwise.nil
        (fun q hq => absurd hq (List.not_mem_nil q))
    · intro hempty p a hp hploc hann hpfrom hroot
      unfold nextHopsTree at hempty
      rw [if_neg hne2, if_neg hne] at hempty
      exact nextHopsTreeScan_empty s f.Destination
        (rootAnnouncement s).announcement.RootPublicKey fromP
        s.peers (distanceTo (coords s) f.Destination) [] hempty p a hp hploc hann hpfrom hroot

/-- Witness for C6 amended at a concrete non-root state with an empty
destination: the scan part of the dichotomy applies. -/
theorem claim6_witness :
    (∀ q ∈ nextHopsTree sC6 pB fC6, q ≠ sC6.localPeer ∧ q ≠ pB ∧
      ∃ a, annLookup sC6.announcements q = some a ∧
        a.announcement.RootPublicKey = (rootAnnouncement sC6).announcement.RootPublicKey ∧
        distanceTo a.announcement.PeerCoords fC6.Destination <
          distanceTo (coords sC6) fC6.Destination) ∧
    (∀ l1 p a l2, sC6.peers = l1 ++ some p :: l2 →
      (∀ q b, some q ∈ l1 → q ≠ sC6.localPeer → annLookup sC6.announcements q = some b →
        q ≠ pB →
        b.announcement.RootPublicKey = (rootAnnouncement sC6).announcement.RootPublicKey →
        distanceTo b.announcement.PeerCoords fC6.Destination ≠ 0 ∧
        fC6.Destination ≠ b.announcement.PeerCoords) →
      p ≠ sC6.localPeer → annLookup sC6.announcements p = some a → p ≠ pB →
      a.announcement.RootPublicKey = (rootAnnouncement sC6).announcement.RootPublicKey →
      (distanceTo a.announcement.PeerCoords fC6.Destination = 0 ∨
        fC6.Destination = a.announcement.PeerCoords) →
      nextHopsTree sC6 pB fC6 = [p]) ∧
    List.Pairwise
      (fun x y => peerDistOf sC6 fC6.Destination x < peerDistOf sC6 fC6.Destination y)
      (nextHopsTree sC6 pB fC6) ∧
    (nextHopsTree sC6 pB fC6 = [] →
      ∀ p a, some p ∈ sC6.peers → p ≠ sC6.localPeer →
        annLookup sC6.announcements p = some a → p ≠ pB →
        a.announcement.RootPublicKey = (rootAnnouncement sC6).announcement.RootPublicKey →
        ¬ distanceTo a.announcement.PeerCoords fC6.Destination <
            distanceTo (coords sC6) fC6.Destination ∧
        distanceTo a.announcement.PeerCoords fC6.Destination ≠ 0 ∧
        fC6.Destination ≠ a.announcement.PeerCoords) :=
  (claim6_amended sC6 pB fC6).2 (by decide)

theorem option_all_true {α : Type} (p : α → Bool) (o : Option α) :
    o.all p = true ↔ ∀ a ∈ o, p a = true := by
  cases o <;> simp [Option.all]

theorem teardownScan_snek_fields (s : State) (fromP : Option Peer)
    (pathKey : types.PublicKey) (pathID : types.VirtualSnakePathID) :
    (teardownScan s fromP pathKey pathID).state.ascending = s.ascending ∧
    (teardownScan s fromP pathKey pathID).state.descending = s.descending ∧
    (teardownScan s fromP pathKey pathID).state.public = s.public := by
  unfold teardownScan
  cases s.table.find? (fun kv => kv.1.PublicKey == pathKey && kv.1.PathID == pathID) with
  | none => exact ⟨rfl, rfl, rfl⟩
  | some kv => exact ⟨rfl, rfl, rfl⟩

theorem teardownDesc_snek_fields (s : State) (fromP : Option Peer)
    (pathKey : types.PublicKey) (pathID : types.VirtualSnakePathID) :
    (teardownDesc s fromP pathKey pathID).state.ascending = s.ascending ∧
    ((teardownDesc s fromP pathKey pathID).state.descending = s.descending ∨
      (teardownDesc s fromP pathKey pathID).state.descending = none) ∧
    (teardownDesc s fromP pathKey pathID).state.public = s.public := by
  unfold teardownDesc
  cases hD : s.descending with
  | none =>
    obtain ⟨h1, h2, h3⟩ := teardownScan_snek_fields s fromP pathKey pathID
    exact ⟨h1, Or.inl (h2.trans hD), h3⟩
  | some desc =>
    dsimp only
    split_ifs with h
    · exact ⟨rfl, Or.inr rfl, rfl⟩
    · obtain ⟨h1, h2, h3⟩ := teardownScan_snek_fields s fromP pathKey pathID
      exact ⟨h1, Or.inl (h2.trans hD), h3⟩

theorem teardownPath_snek_fields (s : State) (fromP : Option Peer)
    (pathKey : types.PublicKey) (pathID : types.VirtualSnakePathID) :
    ((teardownPath s fromP pathKey pathID).state.ascending = s.ascending ∨
      (teardownPath s fromP pathKey pathID).state.ascending = none) ∧
    ((teardownPath s fromP pathKey pathID).state.descending = s.descending ∨
      (teardownPath s fromP pathKey pathID).state.descending = none) ∧
    (teardownPath s fromP pathKey pathID).state.public = s.public := by
  unfold teardownPath
  cases hA : s.ascending with
  | none =>
    obtain ⟨h1, h2, h3⟩ := teardownDesc_snek_fields s fromP pathKey pathID
    exact ⟨Or.inl (h1.trans hA), h2, h3⟩
  | some asc =>
    dsimp only
    split_ifs with h
    · exact ⟨Or.inr rfl, Or.inl rfl, rfl⟩
    · obtain ⟨h1, h2, h3⟩ := teardownDesc_snek_fields s fromP pathKey pathID
      exact ⟨Or.inl (h1.trans hA), h2, h3⟩

theorem sendTeardownForPath_state_eq (s : State) (pathKey : types.PublicKey)
    (pathID : types.VirtualSnakePathID) (via : Option Peer) (ascending : Bool) :
    (sendTeardownForPath s pathKey pathID via ascending).1 =
      (teardownPath s none pathKey pathID).state := by
  unfold sendTeardownForPath
  cases via with
  | some v => rfl
  | none =>
    dsimp only
    cases (teardownPath s none pathKey pathID).nexthop with
    | some n => rfl
    | none => rfl

theorem snekInvariant_mono (s t : State) (hp : t.public = s.public)
    (ha : t.ascending = s.ascending ∨ t.ascending = none)
    (hd : t.descending = s.descending ∨ t.descending = none)
    (h : snekInvariant s = true) : snekInvariant t = true := by
  unfold snekInvariant at h ⊢
  obtain ⟨hA, hD⟩ := Bool.and_eq_true_iff.mp h
  refine Bool.and_eq_true_iff.mpr ⟨?_, ?_⟩
  · rcases ha with ha | ha <;> rw [ha, hp]
    · exact hA
    · rfl
  · rcases hd with hd | hd <;> rw [hd, hp]
    · exact hD
    · rfl

theorem sendTeardownForPath_snekInvariant (s : State) (pathKey : types.PublicKey)
    (pathID : types.VirtualSnakePathID) (via : Option Peer) (ascending : Bool)
    (h : snekInvariant s = true) :
    snekInvariant (sendTeardownForPath s pathKey pathID via ascending).1 = true := by
  rw [sendTeardownForPath_state_eq]
  obtain ⟨ha, hd, hp⟩ := teardownPath_snek_fields s none pathKey pathID
  exact snekInvariant_mono s _ hp ha hd h

/-- When _handleBootstrapACK decides to update and the previous ascending
record is absent or unexpired, the new ascending key (rx.SourceKey) is above
the local key. -/
theorem bootstrapACKUpdate_key (s : State) (now : Nat) (rx : types.Frame)
    (ack : types.VirtualSnakeBootstrapACK) (root : rootAnnouncementWithTime)
    (h : bootstrapACKUpdate s now rx ack root = true)
    (hfresh : ∀ a ∈ s.ascending, now - a.LastSeen < virtualSnakeNeighExpiryPeriod)
    (hinv : ∀ a ∈ s.ascending, s.public < a.PublicKey) :
    s.public < rx.SourceKey := by
  unfold bootstrapACKUpdate at h
  cases hA : s.ascending with
  | none =>
    rw [hA] at h
    split_ifs at h with h1 h2
    unfold util.LessThan at h
    exact of_decide_eq_true h
  | some asc =>
    rw [hA] at h
    dsimp only at h
    split_ifs at h with h1 h2 h3 h4 h5
    · have hlt := hinv asc (by rw [hA]; rfl)
      rw [h3.1] at hlt
      exact hlt
    · have hlt := hfresh asc (by rw [hA]; rfl)
      omega
    · unfold util.DHTOrdered at h5
      exact of_decide_eq_true (Bool.and_eq_true_iff.mp h5).1

/-- When _handleSetup (at the destination) decides to update and the
previous descending record is absent or unexpired, the new descending key
(rx.SourceKey) is below the local key. -/
theorem setupDescUpdate_key (s : State) (now : Nat) (rx : types.Frame)
    (setup : types.VirtualSnakeSetup) (root : rootAnnouncementWithTime)
    (h : setupDescUpdate s now rx setup root = true)
    (hfresh : ∀ d ∈ s.descending, now - d.LastSeen < virtualSnakeNeighExpiryPeriod)
    (hinv : ∀ d ∈ s.descending, d.PublicKey < s.public) :
    rx.SourceKey < s.public := by
  unfold setupDescUpdate at h
  cases hD : s.descending with
  | none =>
    rw [hD] at h
    split_ifs at h with h1 h2
    unfold util.LessThan at h
    exact of_decide_eq_true h
  | some desc =>
    rw [hD] at h
    dsimp only at h
    split_ifs at h with h1 h2 h3 h4 h5
    · have hlt := hinv desc (by rw [hD]; rfl)
      rw [h3] at hlt
      exact hlt
    · have hlt := hfresh desc (by rw [hD]; rfl)
      omega
    · unfold util.DHTOrdered at h5
      exact of_decide_eq_true (Bool.and_eq_true_iff.mp h5).2

theorem snekInvariant_asc (s : State) (h : snekInvariant s = true) :
    ∀ a ∈ s.ascending, s.public < a.PublicKey := by
  unfold snekInvariant at h
  intro a ha
  exact of_decide_eq_true ((option_all_true _ _).mp (Bool.and_eq_true_iff.mp h).1 a ha)

theorem snekInvariant_desc (s : State) (h : snekInvariant s = true) :
    ∀ d ∈ s.descending, d.PublicKey < s.public := by
  unfold snekInvariant at h
  intro d hd
  exact of_decide_eq_true ((option_all_true _ _).mp (Bool.and_eq_true_iff.mp h).2 d hd)

theorem snekInvariant_of (s : State)
    (hA : ∀ a ∈ s.ascending, s.public < a.PublicKey)
    (hD : ∀ d ∈ s.descending, d.PublicKey < s.public) : snekInvariant s = true := by
  unfold snekInvariant
  refine Bool.and_eq_true_iff.mpr ⟨(option_all_true _ _).mpr ?_, (option_all_true _ _).mpr ?_⟩
  · intro a ha
    exact decide_eq_true (hA a ha)
  · intro d hd
    exact decide_eq_true (hD d hd)

theorem ackTeardownStep_fields (s : State) :
    (ackTeardownStep s).1.public = s.public ∧
    ((ackTeardownStep s).1.descending = s.descending ∨
      (ackTeardownStep s).1.descending = none) := by
  unfold ackTeardownStep
  cases s.ascending with
  | none => exact ⟨rfl, Or.inl rfl⟩
  | some asc =>
    rw [sendTeardownForPath_state_eq]
    obtain ⟨_, hd, hp⟩ := teardownPath_snek_fields s none asc.PublicKey asc.PathID
    exact ⟨hp, hd⟩

theorem setupTeardownStep_fields (s : State) :
    (setupTeardownStep s).1.public = s.public ∧
    ((setupTeardownStep s).1.ascending = s.ascending ∨
      (setupTeardownStep s).1.ascending = none) := by
  unfold setupTeardownStep
  cases s.descending with
  | none => exact ⟨rfl, Or.inl rfl⟩
  | some desc =>
    rw [sendTeardownForPath_state_eq]
    obtain ⟨ha, _, hp⟩ := teardownPath_snek_fields s none desc.PublicKey desc.PathID
    exact ⟨hp, ha⟩

theorem snekInvariant_update_asc (base : State) (e : virtualSnakeEntry)
    (hkey : base.public < e.PublicKey)
    (hD : ∀ d ∈ base.descending, d.PublicKey < base.public) :
    snekInvariant { base with ascending := some e } = true := by
  apply snekInvariant_of
  · intro a ha
    have hae : e = a := by simpa using ha
    subst hae
    exact hkey
  · intro d hd
    exact hD d hd

theorem snekInvariant_update_desc (base : State) (e : virtualSnakeEntry)
    (t : List (virtualSnakeIndex × virtualSnakeEntry))
    (hkey : e.PublicKey < base.public)
    (hA : ∀ a ∈ base.ascending, base.public < a.PublicKey) :
    snekInvariant { base with table := t, descending := some e } = true := by
  apply snekInvariant_of
  · intro a ha
    exact hA a ha
  · intro d hd
    have hde : e = d := by simpa using hd
    subst hde
    exact hkey

theorem handleTreeAnnouncement_snek_fields (s : State) (now : Nat) (p : Peer)
    (f : types.Frame) :
    (handleTreeAnnouncement s now p f).state.ascending = s.ascending ∧
    (handleTreeAnnouncement s now p f).state.descending = s.descending ∧
    (handleTreeAnnouncement s now p f).state.public = s.public := by
  unfold handleTreeAnnouncement
  cases f.payload with
  | announcement ann =>
    dsimp only
    by_cases hemp : ann.Signatures = []
    · rw [if_pos hemp]
      exact ⟨rfl, rfl, rfl⟩
    · rw [if_neg hemp]
      cases checkSigs ann.RootPublicKey p.public 0 [] ann.Signatures with
      | some e => exact ⟨rfl, rfl, rfl⟩
      | none =>
        dsimp only
        exact ⟨(treeAnnouncementApply_state_fields _ _ _ _).2.2.1,
          (treeAnnouncementApply_state_fields _ _ _ _).2.2.2.1,
          (treeAnnouncementApply_state_fields _ _ _ _).2.2.2.2.1⟩
  | bootstrap b => exact ⟨rfl, rfl, rfl⟩
  | bootstrapACK b => exact ⟨rfl, rfl, rfl⟩
  | setup x => exact ⟨rfl, rfl, rfl⟩
  | teardown t => exact ⟨rfl, rfl, rfl⟩
  | raw => exact ⟨rfl, rfl, rfl⟩

theorem handleBootstrap_state_eq (s : State) (now : Nat) (fromP : Peer)
    (rx : types.Frame) : (handleBootstrap s now fromP rx).state = s := by
  unfold handleBootstrap
  split_ifs with h
  · rfl
  · cases rx.payload with
    | bootstrap b =>
      dsimp only
      split_ifs with hack
      · split <;> rfl
      · rfl
    | announcement a => rfl
    | bootstrapACK b => rfl
    | setup x => rfl
    | teardown t => rfl
    | raw => rfl

theorem snekPres_treeAnnouncement (s : State) (now : Nat) (p : Peer) (f : types.Frame)
    (h : snekInvariant s = true) :
    snekInvariant (handleTreeAnnouncement s now p f).state = true := by
  obtain ⟨ha, hd, hp⟩ := handleTreeAnnouncement_snek_fields s now p f
  exact snekInvariant_mono s _ hp (Or.inl ha) (Or.inl hd) h

theorem snekPres_bootstrap (s : State) (now : Nat) (fromP : Peer) (rx : types.Frame)
    (h : snekInvariant s = true) :
    snekInvariant (handleBootstrap s now fromP rx).state = true := by
  rw [handleBootstrap_state_eq]
  exact h

theorem snekPres_teardown (s : State) (fromP : Peer) (rx : types.Frame)
    (h : snekInvariant s = true) :
    snekInvariant (handleTeardown s fromP rx).1.state = true := by
  unfold handleTeardown
  cases rx.payload with
  | teardown t =>
    obtain ⟨ha, hd, hp⟩ := teardownPath_snek_fields s (some fromP) rx.DestinationKey t.PathID
    exact snekInvariant_mono s _ hp ha hd h
  | announcement a => exact h
  | bootstrap b => exact h
  | bootstrapACK b => exact h
  | setup x => exact h
  | raw => exact h

theorem snekPres_bootstrapACK (s : State) (now : Nat) (fromP : Peer) (rx : types.Frame)
    (hinv : snekInvariant s = true)
    (hfresh : ∀ a ∈ s.ascending, now - a.LastSeen < virtualSnakeNeighExpiryPeriod) :
    snekInvariant (handleBootstrapACK s now fromP rx).state = true := by
  unfold handleBootstrapACK
  cases rx.payload with
  | bootstrapACK ack =>
    dsimp only
    by_cases hup : bootstrapACKUpdate s now rx ack (rootAnnouncement s) = true
    · rw [if_pos hup]
      have hkey : s.public < rx.SourceKey :=
        bootstrapACKUpdate_key s now rx ack _ hup hfresh (snekInvariant_asc s hinv)
      obtain ⟨hpub, hdesc⟩ := ackTeardownStep_fields s
      have hD : ∀ d ∈ (ackTeardownStep s).1.descending,
          d.PublicKey < (ackTeardownStep s).1.public := by
        intro d hd
        rw [hpub]
        rcases hdesc with hpre | hnone
        · rw [hpre] at hd
          exact snekInvariant_desc s hinv d hd
        · rw [hnone] at hd
          cases hd
      split
      · exact snekInvariant_update_asc (ackTeardownStep s).1 _ (by rw [hpub]; exact hkey) hD
      · exact snekInvariant_update_asc (ackTeardownStep s).1 _ (by rw [hpub]; exact hkey) hD
    · rw [if_neg hup]
      exact hinv
  | announcement a => exact hinv
  | bootstrap b => exact hinv
  | setup x => exact hinv
  | teardown t => exact hinv
  | raw => exact hinv

theorem snekPres_setup (s : State) (now : Nat) (fromP : Peer) (rx : types.Frame)
    (nextHops : List Peer) (hinv : snekInvariant s = true)
    (hfresh : ∀ d ∈ s.descending, now - d.LastSeen < virtualSnakeNeighExpiryPeriod) :
    snekInvariant (handleSetup s now fromP rx nextHops).state = true := by
  unfold handleSetup
  cases rx.payload with
  | setup su =>
    dsimp only
    split_ifs with hdead hdup hdest hupd
    · exact sendTeardownForPath_snekInvariant s rx.SourceKey su.PathID (some fromP) false hinv
    · exact sendTeardownForPath_snekInvariant _ rx.SourceKey su.PathID (some fromP) false
        (sendTeardownForPath_snekInvariant s rx.SourceKey su.PathID none false hinv)
    · have hkey : rx.SourceKey < s.public :=
        setupDescUpdate_key s now rx su _ hupd hfresh (snekInvariant_desc s hinv)
      obtain ⟨hpub, hasc⟩ := setupTeardownStep_fields s
      have hA : ∀ a ∈ (setupTeardownStep s).1.ascending,
          (setupTeardownStep s).1.public < a.PublicKey := by
        intro a ha
        rw [hpub]
        rcases hasc with hpre | hnone
        · rw [hpre] at ha
          exact snekInvariant_asc s hinv a ha
        · rw [hnone] at ha
          cases ha
      exact snekInvariant_update_desc (setupTeardownStep s).1 _ _
        (by rw [hpub]; exact hkey) hA
    · exact sendTeardownForPath_snekInvariant s rx.SourceKey su.PathID (some fromP) false hinv
    · exact snekInvariant_mono s _ rfl (Or.inl rfl) (Or.inl rfl) hinv
  | announcement a => exact hinv
  | bootstrap b => exact hinv
  | bootstrapACK b => exact hinv
  | teardown t => exact hinv
  | raw => exact hinv

/-! Claim C2. -/

/-- C2 as stated is false: when the stored ascending record has expired, the
recovery branch of _handleBootstrapACK installs the ACK sender as the
ascending neighbour without checking key order, so a sender with a key below
the local key breaks the invariant. -/
theorem claim2_counterexample :
    snekInvariant sC2 = true ∧
    rxC2.SourceKey < sC2.public ∧
    (handleBootstrapACK sC2 3600 pA rxC2).state.ascending.map
      (fun e => e.PublicKey) = some rxC2.SourceKey ∧
    snekInvariant (handleBootstrapACK sC2 3600 pA rxC2).state = false := by
  exact ⟨by decide, by decide, by decide, by decide⟩

/-- C2 amended: every handler preserves the invariant (ascending key above
the local key, descending key below it), except that the expiry-recovery
branches may violate it: _handleBootstrapACK preserves it whenever the prior
ascending record is absent or unexpired, and _handleSetup whenever the prior
descending record is absent or unexpired; tree announcements, bootstraps and
teardowns preserve it unconditionally. -/
theorem claim2_amended :
    (∀ s now p f, snekInvariant s = true →
      snekInvariant (handleTreeAnnouncement s now p f).state = true) ∧
    (∀ s now fromP rx, snekInvariant s = true →
      snekInvariant (handleBootstrap s now fromP rx).state = true) ∧
    (∀ s now fromP rx, snekInvariant s = true →
      (∀ a ∈ s.ascending, now - a.LastSeen < virtualSnakeNeighExpiryPeriod) →
      snekInvariant (handleBootstrapACK s now fromP rx).state = true) ∧
    (∀ s now fromP rx nextHops, snekInvariant s = true →
      (∀ d ∈ s.descending, now - d.LastSeen < virtualSnakeNeighExpiryPeriod) →
      snekInvariant (handleSetup s now fromP rx nextHops).state = true) ∧
    (∀ s fromP rx, snekInvariant s = true →
      snekInvariant (handleTeardown s fromP rx).1.state = true) :=
  ⟨snekPres_treeAnnouncement, snekPres_bootstrap,
   fun s now fromP rx hinv hfresh => snekPres_bootstrapACK s now fromP rx hinv hfresh,
   fun s now fromP rx nextHops hinv hfresh =>
     snekPres_setup s now fromP rx nextHops hinv hfresh,
   snekPres_teardown⟩

/-- Witness for C2 amended: an unexpired ascending record (seen at time 0,
now 10) is preserved across a bootstrap ACK that does not update. -/
theorem claim2_witness :
    snekInvariant (handleBootstrapACK sC2 10 pA rxC2).state = true :=
  claim2_amended.2.2.1 sC2 10 pA rxC2 (by decide) (by decide)

theorem index_beq_split (j : virtualSnakeIndex) (K : types.PublicKey)
    (I : types.VirtualSnakePathID) :
    (j == { PublicKey := K, PathID := I }) = (j.PublicKey == K && j.PathID == I) := by
  cases j
  rw [Bool.eq_iff_iff]
  simp [virtualSnakeIndex.mk.injEq]

theorem tableLookup_tableErase_self (t : List (virtualSnakeIndex × virtualSnakeEntry))
    (i : virtualSnakeIndex) : tableLookup (tableErase t i) i = none := by
  induction t with
  | nil => rfl
  | cons kv rest ih =>
    unfold tableErase tableLookup at ih ⊢
    rw [List.filter_cons]
    by_cases h : kv.1 = i
    · simp only [h, bne_self_eq_false]
      exact ih
    · have hb : (kv.1 != i) = true := bne_iff_ne.mpr h
      rw [if_pos hb, List.find?_cons_of_neg]
      · exact ih
      · simp [h]

theorem teardownScan_lookup_none (s : State) (fromP : Option Peer)
    (K : types.PublicKey) (I : types.VirtualSnakePathID) :
    tableLookup (teardownScan s fromP K I).state.table { PublicKey := K, PathID := I } = none := by
  unfold teardownScan
  cases hf : s.table.find? (fun kv => kv.1.PublicKey == K && kv.1.PathID == I) with
  | none =>
    dsimp only
    have hnone : s.table.find?
        (fun x => x.1 == ({ PublicKey := K, PathID := I } : virtualSnakeIndex)) = none := by
      rw [List.find?_eq_none]
      intro x hx hbeq
      apply List.find?_eq_none.mp hf x hx
      rw [← index_beq_split]
      exact hbeq
    unfold tableLookup
    rw [hnone]
    rfl
  | some kv =>
    dsimp only
    have hp := List.find?_some hf
    obtain ⟨h1, h2⟩ := Bool.and_eq_true_iff.mp hp
    have hidx : kv.1 = { PublicKey := K, PathID := I } := by
      cases hkv : kv.1 with
      | mk a b =>
        rw [hkv] at h1 h2
        simp only at h1 h2
        rw [beq_iff_eq] at h1 h2
        rw [h1, h2]
    rw [hidx]
    exact tableLookup_tableErase_self s.table _

theorem teardownDesc_lookup_none (s : State) (fromP : Option Peer)
    (K : types.PublicKey) (I : types.VirtualSnakePathID) :
    tableLookup (teardownDesc s fromP K I).state.table { PublicKey := K, PathID := I } = none := by
  unfold teardownDesc
  cases s.descending with
  | none => exact teardownScan_lookup_none s fromP K I
  | some desc =>
    dsimp only
    split_ifs with h
    · have : ({ PublicKey := desc.PublicKey, PathID := desc.PathID } : virtualSnakeIndex) =
          { PublicKey := K, PathID := I } := by
        rw [h.1, h.2]
      rw [this]
      exact tableLookup_tableErase_self s.table _
    · exact teardownScan_lookup_none s fromP K I

theorem teardownPath_lookup_none (s : State) (K : types.PublicKey)
    (I : types.VirtualSnakePathID) :
    tableLookup (teardownPath s none K I).state.table { PublicKey := K, PathID := I } = none := by
  unfold teardownPath
  cases s.ascending with
  | none => exact teardownDesc_lookup_none s none K I
  | some asc =>
    dsimp only
    split_ifs with h
    · rcases h.2 with hc | hc
      · exact absurd rfl hc.1
      · have : ({ PublicKey := asc.PublicKey, PathID := asc.PathID } : virtualSnakeIndex) =
            { PublicKey := K, PathID := I } := by
          rw [hc.2, h.1]
        rw [this]
        exact tableLookup_tableErase_self s.table _
    · exact teardownDesc_lookup_none s none K I

theorem teardownPath_out_noPush (s : State) (fromP : Option Peer)
    (K : types.PublicKey) (I : types.VirtualSnakePathID) :
    (teardownPath s fromP K I).out.filter Output.isPush = [] := by
  have hscan : (teardownScan s fromP K I).out.filter Output.isPush = [] := by
    unfold teardownScan
    cases s.table.find? (fun kv => kv.1.PublicKey == K && kv.1.PathID == I) with
    | none => rfl
    | some kv => rfl
  have hdesc : (teardownDesc s fromP K I).out.filter Output.isPush = [] := by
    unfold teardownDesc
    cases s.descending with
    | none => exact hscan
    | some desc =>
      dsimp only
      split_ifs with h
      · rfl
      · exact hscan
  unfold teardownPath
  cases s.ascending with
  | none => exact hdesc
  | some asc =>
    dsimp only
    split_ifs with h
    · rfl
    · exact hdesc

theorem sendTeardownForPath_pushes_none (s : State) (K : types.PublicKey)
    (I : types.VirtualSnakePathID) (asc : Bool) :
    (sendTeardownForPath s K I none asc).2.filter Output.isPush =
      (match (teardownPath s none K I).nexthop with
       | some n => [Output.push n (getTeardown s K I asc)]
       | none => []) := by
  unfold sendTeardownForPath
  dsimp only
  cases hnx : (teardownPath s none K I).nexthop with
  | some n =>
    dsimp only
    rw [List.filter_append, teardownPath_out_noPush]
    rfl
  | none =>
    dsimp only
    rw [teardownPath_out_noPush]

theorem sendTeardownForPath_pushes_via (s : State) (K : types.PublicKey)
    (I : types.VirtualSnakePathID) (v : Peer) (asc : Bool) :
    (sendTeardownForPath s K I (some v) asc).2.filter Output.isPush =
      [Output.push v (getTeardown s K I asc)] := by
  unfold sendTeardownForPath
  dsimp only
  rw [List.filter_append, teardownPath_out_noPush]
  rfl

/-! Claim C7. -/

/-- C7 as stated is false: when the dead-end check fires first (empty
next-hop list, destination not local), _handleSetup returns a nil error and
emits a single teardown even though the duplicate index is in the table. -/
theorem claim7_counterexample :
    (tableLookup sC7.table { PublicKey := 2, PathID := 7 }).isSome = true ∧
    (handleSetup sC7 0 pA rx8 []).err = none ∧
    ((handleSetup sC7 0 pA rx8 []).out.filter Output.isPush).length = 1 := by
  exact ⟨by decide, by decide, by decide⟩

/-- C7 amended: provided the dead-end check does not fire first, a Setup
whose (source key, path id) already has a table entry makes _handleSetup
remove that entry, install nothing new, return an error, and push exactly
one teardown back to the arrival peer plus one toward the stored path's
other endpoint whenever that endpoint resolves to a peer. -/
theorem claim7_amended (s : State) (now : Nat) (fromP : Peer) (rx : types.Frame)
    (nextHops : List Peer) (su : types.VirtualSnakeSetup)
    (hpl : rx.payload = types.Payload.setup su)
    (hdup : (tableLookup s.table { PublicKey := rx.SourceKey, PathID := su.PathID }).isSome
      = true)
    (hnodead : ¬ ((nextHops = [] ∨ nextHops.head? = some s.localPeer) ∧
      rx.DestinationKey ≠ s.public)) :
    (handleSetup s now fromP rx nextHops).err.isSome = true ∧
    tableLookup (handleSetup s now fromP rx nextHops).state.table
      { PublicKey := rx.SourceKey, PathID := su.PathID } = none ∧
    (handleSetup s now fromP rx nextHops).state.table.Sublist s.table ∧
    (handleSetup s now fromP rx nextHops).out.filter Output.isPush =
      (match (teardownPath s none rx.SourceKey su.PathID).nexthop with
       | some q => [Output.push q (getTeardown s rx.SourceKey su.PathID false),
                    Output.push fromP (getTeardown s rx.SourceKey su.PathID false)]
       | none => [Output.push fromP (getTeardown s rx.SourceKey su.PathID false)]) := by
  unfold handleSetup
  rw [hpl]
  dsimp only
  rw [if_neg hnodead, if_pos hdup]
  refine ⟨rfl, ?_, ?_, ?_⟩
  · rw [sendTeardownForPath_state_eq]
    exact teardownPath_lookup_none _ rx.SourceKey su.PathID
  · have h2 := teardownPath_table_sublist
      (sendTeardownForPath s rx.SourceKey su.PathID none false).1 none rx.SourceKey su.PathID
    rw [sendTeardownForPath_state_eq (sendTeardownForPath s rx.SourceKey su.PathID none false).1]
    refine List.Sublist.trans h2 ?_
    rw [sendTeardownForPath_state_eq]
    exact teardownPath_table_sublist s none rx.SourceKey su.PathID
  · rw [List.filter_append, sendTeardownForPath_pushes_none, sendTeardownForPath_pushes_via]
    cases (teardownPath s none rx.SourceKey su.PathID).nexthop with
    | some q => rfl
    | none => rfl

/-- Witness for C7 amended at a concrete duplicate-setup state. -/
theorem claim7_witness :
    (handleSetup sC7 0 pA rx8 [pB]).err.isSome = true ∧
    tableLookup (handleSetup sC7 0 pA rx8 [pB]).state.table
      { PublicKey := rx8.SourceKey, PathID := (7 : types.VirtualSnakePathID) } = none ∧
    (handleSetup sC7 0 pA rx8 [pB]).state.table.Sublist sC7.table ∧
    (handleSetup sC7 0 pA rx8 [pB]).out.filter Output.isPush =
      (match (teardownPath sC7 none rx8.SourceKey (7 : types.VirtualSnakePathID)).nexthop with
       | some q => [Output.push q (getTeardown sC7 rx8.SourceKey 7 false),
                    Output.push pA (getTeardown sC7 rx8.SourceKey 7 false)]
       | none => [Output.push pA (getTeardown sC7 rx8.SourceKey 7 false)]) :=
  claim7_amended sC7 0 pA rx8 [pB] { PathID := 7, RootPublicKey := 5, RootSequence := 0 }
    rfl (by decide) (by decide)

end Pinecone
